import Mathlib

/-!
# MAST3: geometric evaluation kernel and elasto-plastic strain-energy operator

A shallow embedding of

* `include/mast/fe/eval/fe_derivative_evaluation.hpp` (the geometric kernel),
* `include/mast/physics/elasticity/material_nonlinear_continuum_strain_energy.hpp`
  (`StrainEnergy`), and
* `include/mast/base/parameter_data.hpp` (`ParameterData`).

Scalars are elements of a commutative ring or field `K` (exact arithmetic); `uint_t` counts
are natural numbers.  Dense Eigen matrices are modelled with their column-major coefficient
storage, so that the pointer views (`Eigen::Map` over `col(i).data()` or `row(i).data()`)
of the source read and write the same cells as in the source; a view whose matrix type fixes
an extent at compile time has that extent, whatever its constructor is given.
-/

namespace MAST

/-! ## Definitions -/

/-- Modelled from the spec: the `Assert0`, `Assert1`, `Assert2` and `Error` macros of
`mast/base/exceptions.hpp`, which is not among the sources.  A violated condition is an
unrecoverable precondition violation: the computation terminates with an error. -/
inductive Status where
  | ok : Status
  | failed (msg : String) : Status
deriving DecidableEq

/-- The counted loop `for (uint_t i=0; i<n; i++) body(i)`, threading the state that the body
updates: the body runs for `i = 0`, then `1`, ... and last for `n-1`. -/
def forLoop {σ : Type} (body : Nat → σ → σ) : Nat → σ → σ
  | 0, s => s
  | n + 1, s => body n (forLoop body n s)

/-- A dense Eigen matrix with dynamic extent: `rows`, `cols` and the coefficient storage,
column-major (Eigen's default), so coefficient `(i, j)` is cell `j * rows + i`. -/
structure EMatrix (K : Type) where
  rows : Nat
  cols : Nat
  data : Nat → K

namespace EMatrix

variable {K : Type}

/-- The Eigen expression `Matrix::Zero(r, c)`. -/
def zeros [Zero K] (r c : Nat) : EMatrix K := ⟨r, c, fun _ => 0⟩

/-- Coefficient read `M(i, j)`. -/
def coeff (M : EMatrix K) (i j : Nat) : K := M.data (j * M.rows + i)

/-- Store `v` in storage cell `p`. -/
def writeAt (M : EMatrix K) (p : Nat) (v : K) : EMatrix K :=
  { M with data := Function.update M.data p v }

/-- Add `v` to storage cell `p`. -/
def addAt [Add K] (M : EMatrix K) (p : Nat) (v : K) : EMatrix K :=
  M.writeAt p (M.data p + v)

/-- Coefficient write `M(i, j) = v`. -/
def setCoeff (M : EMatrix K) (i j : Nat) (v : K) : EMatrix K :=
  M.writeAt (j * M.rows + i) v

/-- Coefficient update `M(i, j) += v`. -/
def addCoeff [Add K] (M : EMatrix K) (i j : Nat) (v : K) : EMatrix K :=
  M.addAt (j * M.rows + i) v

/-- The pointer `M.col(j).data()`: the cell of coefficient `(0, j)`. -/
def colPtr (M : EMatrix K) (j : Nat) : Nat := j * M.rows

/-- The pointer `M.row(i).data()`: the cell of coefficient `(i, 0)`, which in column-major
storage is cell `i`. -/
def rowPtr (_M : EMatrix K) (i : Nat) : Nat := i

/-- Coefficient `(a, b)` of an `Eigen::Map` view with `r` rows placed at cell `ptr`. -/
def mapCoeff (M : EMatrix K) (ptr r a b : Nat) : K := M.data (ptr + b * r + a)

/-- The update `view(a, b) += v` through an `Eigen::Map` view with `r` rows at cell `ptr`. -/
def mapAdd [Add K] (M : EMatrix K) (ptr r a b : Nat) (v : K) : EMatrix K :=
  M.addAt (ptr + b * r + a) v

/-- The square `Eigen::Map<Matrix<K, E, E>>` view at cell `ptr`, read as a matrix. -/
def mapBlock (M : EMatrix K) (ptr E : Nat) : Matrix (Fin E) (Fin E) K :=
  fun a b => M.data (ptr + b.val * E + a.val)

/-- The assignment `view = A` through a square `E x E` view at cell `ptr`: every one of the
`E * E` cells of the view receives its coefficient of `A`. -/
def mapAssign (M : EMatrix K) (ptr E : Nat) (A : Matrix (Fin E) (Fin E) K) : EMatrix K :=
  { M with
    data := fun x =>
      if h : ptr ≤ x ∧ x < ptr + E * E then
        A ⟨(x - ptr) % E, Nat.mod_lt _ (Nat.pos_of_ne_zero (fun h0 => by subst h0; omega))⟩
          ⟨(x - ptr) / E, Nat.div_lt_of_lt_mul (by omega)⟩
      else M.data x }

/-- The `r x c` block packed column-major in column `q` of `M` (the packing of the spec's
data model: one block per quadrature point), entry `(j, k)`. -/
def packedBlock (M : EMatrix K) (r q j k : Nat) : K := M.coeff (k * r + j) q

/-- The square `E x E` block packed in column `q` of `M`, as a matrix. -/
def packedSquare (M : EMatrix K) (E q : Nat) : Matrix (Fin E) (Fin E) K :=
  fun a b => M.packedBlock E q a.val b.val

end EMatrix

/-- Modelled from the spec: the capability of the FE basis/shape evaluator (`FEBasisType`, a
template parameter whose class is not among the sources): `n_q_points()`, `n_basis()`,
`phi(q, basis_index)`, `dphi_dxi(q, basis_index, ref_dim_index)`, `qp_weight(q)`,
`detJxW(q)`. -/
structure FEBasisType (K : Type) where
  n_q_points : Nat
  n_basis : Nat
  phi : Nat → Nat → K
  dphi_dxi : Nat → Nat → Nat → K
  qp_weight : Nat → K
  detJxW : Nat → K

/-- Modelled from the spec: the capability of the element context (`ContextType`, a template
parameter whose class is not among the sources) that the geometric kernel uses: `n_nodes()`,
`nodal_coord(node_index, dim_index)` and `elem_is_quad()`. -/
structure ContextType (K : Type) where
  n_nodes : Nat
  nodal_coord : Nat → Nat → K
  elem_is_quad : Bool

namespace FEBasis
namespace Evaluation

open EMatrix

variable {K : Type}

/-- The function `compute_xyz` (fe_derivative_evaluation.hpp, lines 14-42).  The two output
references are passed in with their previous contents and returned as
`(node_coord, xyz)`. -/
def compute_xyz [CommRing K] (SpatialDim : Nat) (c : ContextType K) (fe_basis : FEBasisType K)
    (_node_coord _xyz : EMatrix K) : EMatrix K × EMatrix K :=
  let nq := fe_basis.n_q_points
  let n_nodes := c.n_nodes
  let node_coord : EMatrix K := zeros SpatialDim n_nodes
  let xyz : EMatrix K := zeros SpatialDim nq
  let node_coord := forLoop (fun i nc =>
    forLoop (fun j nc => nc.setCoeff j i (c.nodal_coord i j)) SpatialDim nc) n_nodes node_coord
  let xyz := forLoop (fun i x =>
    forLoop (fun k x =>
      forLoop (fun j x => x.addCoeff j i (fe_basis.phi i k * node_coord.coeff j k))
        SpatialDim x) n_nodes x) nq xyz
  (node_coord, xyz)

/-- The function `compute_Jac` (lines 46-75).  In iteration `i` the view `dxdxi` is an
`Eigen::Map` of the matrix type with `SpatialDim*ElemDim` rows fixed at compile time, placed
at `dx_dxi.col(i).data()` and constructed with the extents `(SpatialDim, ElemDim)`.  Eigen
compares the row count given to the constructor with the compile-time one in an
`eigen_assert`: in a build without `NDEBUG` (`ndebug = false`) the program stops there when
the two differ, in the first iteration, after `dx_dxi` was zeroed and before any coefficient
is written.  In a build with `NDEBUG` the view keeps its compile-time row count
`SpatialDim*ElemDim`, which is then also its column stride, so its coefficient `(j, k)` is
cell `k * (SpatialDim*ElemDim) + j` of the view.  The status of the call and the output
reference `dx_dxi` are returned. -/
def compute_Jac [CommRing K] (ndebug : Bool) (ElemDim SpatialDim : Nat) (c : ContextType K)
    (fe_basis : FEBasisType K) (node_coord : EMatrix K) (_dx_dxi : EMatrix K) :
    Status × EMatrix K :=
  let nq := fe_basis.n_q_points
  let n_nodes := c.n_nodes
  let dx_dxi : EMatrix K := zeros (SpatialDim * ElemDim) nq
  if ndebug = false ∧ 0 < nq ∧ SpatialDim * ElemDim ≠ SpatialDim then
    (Status.failed "Eigen assertion: the rows of the Map differ from those of its type",
      dx_dxi)
  else
    (Status.ok,
      forLoop (fun i M =>
        let dxdxi := M.colPtr i
        forLoop (fun l M =>
          forLoop (fun j M =>
            forLoop (fun k M =>
              M.mapAdd dxdxi (SpatialDim * ElemDim) j k
                (fe_basis.dphi_dxi i l k * node_coord.coeff j l))
              ElemDim M) SpatialDim M) n_nodes M) nq dx_dxi)

/-- The function `compute_detJxW` (lines 319-343).  Returns the status of the call and the
output reference `detJxW`, which holds its previous contents when the assertion fails. -/
def compute_detJxW [CommRing K] (fe_basis : FEBasisType K) (detJ : EMatrix K)
    (detJxW : EMatrix K) : Status × EMatrix K :=
  if fe_basis.n_q_points = detJ.cols then
    let nq := detJ.cols
    let detJxW : EMatrix K := zeros 1 nq
    (Status.ok,
      forLoop (fun i W => W.writeAt i (detJ.data i * fe_basis.qp_weight i)) nq detJxW)
  else
    (Status.failed "Incompatible number of quadrature points of detJ and FEBasis.", detJxW)

/-- The Eigen expression `A.inverse()` of a square fixed-size matrix in exact arithmetic:
the adjugate divided by the determinant. -/
def inverse [Field K] (E : Nat) (A : Matrix (Fin E) (Fin E) K) : Matrix (Fin E) (Fin E) K :=
  (A.det)⁻¹ • A.adjugate

/-- The function `compute_Jac_inv` for `ElemDim == SpatialDim` (lines 358-383).  In
iteration `i` both views are `ElemDim x ElemDim` maps placed at `row(i).data()` of their
matrix, as the source writes them. -/
def compute_Jac_inv [Field K] (ElemDim : Nat) (dx_dxi : EMatrix K) (_dxi_dx : EMatrix K) :
    EMatrix K :=
  let nq := dx_dxi.cols
  let dxi_dx : EMatrix K := zeros (ElemDim * ElemDim) nq
  forLoop (fun i M =>
    let dxdxi := dx_dxi.mapBlock (dx_dxi.rowPtr i) ElemDim
    M.mapAssign (M.rowPtr i) ElemDim (inverse ElemDim dxdxi)) nq dxi_dx

end Evaluation
end FEBasis

namespace Physics
namespace Elasticity
namespace ElastoPlasticity

variable {K C : Type}

/-- Modelled from the spec: the FE-variable-data provider (`FEVarType`, a template parameter
whose class is not among the sources).  It gives `get_fe_shape_data()` and, through the
linear strain-operator collaborator `LinearContinuum::strain` of
`linear_elastic_strain_operator.hpp` (not among the sources), for a quadrature index the
strain vector `epsilon` and the strain-displacement operator `Bxmat` (entry
`(strain component, degree of freedom)`). -/
structure FEVarType (K : Type) where
  get_fe_shape_data : FEBasisType K
  strain : Nat → (Nat → K) × (Nat → Nat → K)

/-- Modelled from the spec: what the yield-surface model hands back from
`compute(context, strain, material_params, → stress, tangent_modulus)`: the context (with
its material-parameter accessor) after the call, the stress and the tangent modulus. -/
structure YieldResult (C K : Type) where
  context : C
  stress : Nat → K
  tangent : Nat → Nat → K

/-- Modelled from the spec: the yield-surface/material model (`YieldSurfaceType`, a template
parameter whose class is not among the sources). -/
structure YieldSurfaceType (C K : Type) where
  compute : C → (Nat → K) → YieldResult C K

/-- Modelled from the spec: `FEMOperatorMatrix::vector_mult_transpose(vec, v)` (the class is
not among the sources): `vec = Bᵗ·v`, a vector with `n_dofs` entries. -/
def vector_mult_transpose [CommRing K] (n_strain n_dofs : Nat) (Bxmat : Nat → Nat → K)
    (v : Nat → K) : Nat → K :=
  fun a => if a < n_dofs then ∑ k in Finset.range n_strain, Bxmat k a * v k else 0

/-- Modelled from the spec: `FEMOperatorMatrix::left_multiply(mat1, m)`: `mat1 = m·B`, with
`n_strain` rows and `n_dofs` columns. -/
def left_multiply [CommRing K] (n_strain n_dofs : Nat) (Bxmat : Nat → Nat → K)
    (m : Nat → Nat → K) : Nat → Nat → K :=
  fun k a =>
    if k < n_strain ∧ a < n_dofs then ∑ l in Finset.range n_strain, m k l * Bxmat l a else 0

/-- Modelled from the spec: `FEMOperatorMatrix::right_multiply_transpose(mat2, m)`:
`mat2 = Bᵗ·m`, with `n_dofs` rows and columns. -/
def right_multiply_transpose [CommRing K] (n_strain n_dofs : Nat) (Bxmat : Nat → Nat → K)
    (m : Nat → Nat → K) : Nat → Nat → K :=
  fun a b =>
    if a < n_dofs ∧ b < n_dofs then ∑ k in Finset.range n_strain, Bxmat k a * m k b else 0

/-- The class `StrainEnergy`: its two private members, each a pointer that is null
(`none`) until bound. -/
structure StrainEnergy (F Y : Type) where
  _yield : Option Y
  _fe_var_data : Option F

/-- The constructor `StrainEnergy()`: both members are `nullptr`. -/
def StrainEnergy.new {F Y : Type} : StrainEnergy F Y := ⟨none, none⟩

/-- The method `set_yield_surface` (lines 54-60): the status of the call and the operator
after it. -/
def StrainEnergy.set_yield_surface {F Y : Type} (self : StrainEnergy F Y) (ys : Y) :
    Status × StrainEnergy F Y :=
  match self._yield with
  | some _ => (Status.failed "Yield surface already initialized.", self)
  | none => (Status.ok, { self with _yield := some ys })

/-- The method `set_fe_var_data` (lines 62-66). -/
def StrainEnergy.set_fe_var_data {F Y : Type} (self : StrainEnergy F Y) (fe_data : F) :
    Status × StrainEnergy F Y :=
  match self._fe_var_data with
  | some _ => (Status.failed "FE data already initialized.", self)
  | none => (Status.ok, { self with _fe_var_data := some fe_data })

/-- The method `n_dofs` (lines 68-73). -/
def StrainEnergy.n_dofs {Y : Type} (Dim : Nat) (self : StrainEnergy (FEVarType K) Y) :
    Except String Nat :=
  match self._fe_var_data with
  | none => Except.error "FE data not initialized."
  | some fe_var_data => Except.ok (Dim * fe_var_data.get_fe_shape_data.n_basis)

/-- What a `compute` or `derivative` call leaves behind: the operator, the context `c`
(passed by non-const reference) and the caller's buffers `res` and `jac` (`none` for the
null `jac` pointer). -/
structure CallState (F Y C K : Type) where
  self : StrainEnergy F Y
  c : C
  res : Nat → K
  jac : Option (Nat → Nat → K)

/-- The method `compute` (lines 75-124).  `init_for_qp` is the context's capability of that
name.  `stress` is the contents of the local `stress`: the source declares it without an
initialiser (an Eigen fixed-size vector is not initialised by its default constructor), never
assigns it and passes it to `vector_mult_transpose`, so it holds whatever the call finds in
memory.  The locals `epsilon`, `Bxmat`, `mat`, `vec`, `mat1` and `mat2` are written in every
iteration before they are read. -/
def StrainEnergy.compute [CommRing K] (Dim n_strain : Nat) (init_for_qp : Nat → C → C)
    (self : StrainEnergy (FEVarType K) (YieldSurfaceType C K)) (stress : Nat → K)
    (c : C) (res : Nat → K) (jac : Option (Nat → Nat → K)) :
    Status × CallState (FEVarType K) (YieldSurfaceType C K) C K :=
  match self._fe_var_data with
  | none => (Status.failed "FE data not initialized.", ⟨self, c, res, jac⟩)
  | some fe_var_data =>
    match self._yield with
    | none => (Status.failed "Yield surface not initialized", ⟨self, c, res, jac⟩)
    | some yield =>
      let fe := fe_var_data.get_fe_shape_data
      let n := Dim * fe.n_basis
      (Status.ok,
        forLoop (fun i s =>
          let c := init_for_qp i s.c
          let epsilon := (fe_var_data.strain i).1
          let Bxmat := (fe_var_data.strain i).2
          let out := yield.compute c epsilon
          let mat := out.tangent
          let vec := vector_mult_transpose n_strain n Bxmat stress
          let res := fun a => s.res a + fe.detJxW i * vec a
          let jac := s.jac.map (fun J =>
            let mat1 := left_multiply n_strain n Bxmat mat
            let mat2 := right_multiply_transpose n_strain n Bxmat mat1
            fun a b => J a b + fe.detJxW i * mat2 a b)
          ⟨s.self, out.context, res, jac⟩) fe.n_q_points ⟨self, c, res, jac⟩)

/-- The method `derivative` (lines 126-174), for a direction field `f` of any type.  Its
call of the yield surface is commented out in the source, so both `stress` and `mat` hold
what the call finds in memory (see `compute`). -/
def StrainEnergy.derivative [CommRing K] {ScalarFieldType : Type} (Dim n_strain : Nat)
    (init_for_qp : Nat → C → C)
    (self : StrainEnergy (FEVarType K) (YieldSurfaceType C K)) (stress : Nat → K)
    (mat : Nat → Nat → K) (c : C) (_f : ScalarFieldType) (res : Nat → K)
    (jac : Option (Nat → Nat → K)) :
    Status × CallState (FEVarType K) (YieldSurfaceType C K) C K :=
  match self._fe_var_data with
  | none => (Status.failed "FE data not initialized.", ⟨self, c, res, jac⟩)
  | some fe_var_data =>
    match self._yield with
    | none => (Status.failed "Yield surface not initialized", ⟨self, c, res, jac⟩)
    | some _ =>
      let fe := fe_var_data.get_fe_shape_data
      let n := Dim * fe.n_basis
      (Status.ok,
        forLoop (fun i s =>
          let c := init_for_qp i s.c
          let Bxmat := (fe_var_data.strain i).2
          let vec := vector_mult_transpose n_strain n Bxmat stress
          let res := fun a => s.res a + fe.detJxW i * vec a
          let jac := s.jac.map (fun J =>
            let mat1 := left_multiply n_strain n Bxmat mat
            let mat2 := right_multiply_transpose n_strain n Bxmat mat1
            fun a b => J a b + fe.detJxW i * mat2 a b)
          ⟨s.self, c, res, jac⟩) fe.n_q_points ⟨self, c, res, jac⟩)

/-- The context that `compute` has reached when iteration `q` starts: the caller's context
after the iterations `0 .. q-1`, each of which advances it to its quadrature point and hands
it to the yield surface. -/
def contextBefore (init_for_qp : Nat → C → C) (fe_var_data : FEVarType K)
    (ys : YieldSurfaceType C K) (c : C) : Nat → C
  | 0 => c
  | q + 1 =>
    (ys.compute (init_for_qp q (contextBefore init_for_qp fe_var_data ys c q))
      (fe_var_data.strain q).1).context

/-- What the bound yield surface produces at quadrature point `q` of a `compute` call: its
result for the context advanced to `q` and the strain of the linear strain operator at `q`. -/
def yieldAt (init_for_qp : Nat → C → C) (fe_var_data : FEVarType K)
    (ys : YieldSurfaceType C K) (c : C) (q : Nat) : YieldResult C K :=
  ys.compute (init_for_qp q (contextBefore init_for_qp fe_var_data ys c q))
    (fe_var_data.strain q).1

end ElastoPlasticity
end Elasticity
end Physics

end MAST

namespace MAST
namespace FEBasis
namespace Evaluation
open EMatrix

/-- A triangle with the nodes `(0,0)`, `(2,1)` and `(1,1)`. -/
def triContext : ContextType ℚ :=
  { n_nodes := 3
    nodal_coord := fun i j =>
      match i, j with
      | 1, 0 => 2
      | 1, 1 => 1
      | 2, 0 => 1
      | 2, 1 => 1
      | _, _ => 0
    elem_is_quad := false }

/-- The linear basis on the reference triangle, `(1-ξ-η, ξ, η)`, with two quadrature
points: the reference derivatives are the same at both. -/
def triBasis : FEBasisType ℚ :=
  { n_q_points := 2
    n_basis := 3
    phi := fun _ _ => 1 / 3
    dphi_dxi := fun _ l k =>
      match l, k with
      | 0, _ => -1
      | 1, 0 => 1
      | 2, 1 => 1
      | _, _ => 0
    qp_weight := fun _ => 1 / 4
    detJxW := fun _ => 1 / 4 }

/-- The packed Jacobian of the triangle with two quadrature points, one block per column:
`dx_j/dξ_k = Σ_l dphi_dxi(q,l,k) * node_coord(j,l)` gives `[[2, 1], [1, 1]]` at both points,
packed column-major as `(2, 1, 1, 1)`. -/
def triJac : EMatrix ℚ :=
  ⟨4, 2, fun p => if p = 0 ∨ p = 4 then 2 else if p < 8 then 1 else 0⟩

end Evaluation
end FEBasis
end MAST

namespace MAST
namespace Physics
namespace Elasticity
namespace ElastoPlasticity

open Finset

variable {K C : Type}

/-- The residual that the contract of `compute` describes:
`res_in + Σ_q detJxW(q)·B(q)ᵗ·stress(q)`, where `stress(q)` is the stress that the bound
yield surface produces for the strain at `q`. -/
def contractResidual [CommRing K] (Dim n_strain : Nat) (init_for_qp : Nat → C → C)
    (fe_var_data : FEVarType K) (ys : YieldSurfaceType C K) (c : C) (res : Nat → K) :
    Nat → K :=
  fun a => res a + ∑ q in range fe_var_data.get_fe_shape_data.n_q_points,
    fe_var_data.get_fe_shape_data.detJxW q *
      vector_mult_transpose n_strain (Dim * fe_var_data.get_fe_shape_data.n_basis)
        (fe_var_data.strain q).2 (yieldAt init_for_qp fe_var_data ys c q).stress a

/-- The tangent that the contract of `compute` describes:
`jac_in + Σ_q detJxW(q)·B(q)ᵗ·(C(q)·B(q))`, where `C(q)` is the tangent modulus that the
bound yield surface produces for the strain at `q`. -/
def contractTangent [CommRing K] (Dim n_strain : Nat) (init_for_qp : Nat → C → C)
    (fe_var_data : FEVarType K) (ys : YieldSurfaceType C K) (c : C) (jac : Nat → Nat → K) :
    Nat → Nat → K :=
  fun a b => jac a b + ∑ q in range fe_var_data.get_fe_shape_data.n_q_points,
    fe_var_data.get_fe_shape_data.detJxW q *
      right_multiply_transpose n_strain (Dim * fe_var_data.get_fe_shape_data.n_basis)
        (fe_var_data.strain q).2
        (left_multiply n_strain (Dim * fe_var_data.get_fe_shape_data.n_basis)
          (fe_var_data.strain q).2 (yieldAt init_for_qp fe_var_data ys c q).tangent) a b

/-- A two-node bar of unit length (`Dim = 1`, one strain component) with one quadrature
point of `detJxW = 1`: the strain-displacement operator is `(-1, 1)` and the nodal
displacements `(0, 1)` give the strain `1`. -/
def barFE : FEVarType ℚ :=
  { get_fe_shape_data :=
      { n_q_points := 1
        n_basis := 2
        phi := fun _ _ => 1 / 2
        dphi_dxi := fun _ l _ => if l = 0 then -1 else 1
        qp_weight := fun _ => 1
        detJxW := fun _ => 1 }
    strain := fun _ =>
      (fun _ => 1, fun k a => if k = 0 then (if a = 0 then -1 else if a = 1 then 1 else 0) else 0) }

/-- A material model on the bar whose context is the current quadrature point: stress
`2·strain` and tangent modulus `2`. -/
def barYield : YieldSurfaceType Nat ℚ :=
  { compute := fun c epsilon =>
      ⟨c, fun k => 2 * epsilon k, fun k l => if k = 0 ∧ l = 0 then 2 else 0⟩ }

/-- The context capability `init_for_qp` of the bar: the context becomes the point index. -/
def barInit : Nat → Nat → Nat := fun q _ => q

/-- The bar operator with both collaborators bound. -/
def barOperator : StrainEnergy (FEVarType ℚ) (YieldSurfaceType Nat ℚ) :=
  ⟨some barYield, some barFE⟩

/-- FE data of a four-node quadrilateral (`n_basis = 4`) with four quadrature points. -/
def quadFE : FEVarType ℚ :=
  { get_fe_shape_data :=
      { n_q_points := 4
        n_basis := 4
        phi := fun _ _ => 1 / 4
        dphi_dxi := fun _ _ _ => 0
        qp_weight := fun _ => 1
        detJxW := fun _ => 1 / 4 }
    strain := fun _ => (fun _ => 0, fun _ _ => 0) }

end ElastoPlasticity
end Elasticity
end Physics
end MAST

namespace MAST

/-- The Eigen expression `Matrix::Ones(r, c)`. -/
def EMatrix.ones {K : Type} [One K] (r c : Nat) : EMatrix K := ⟨r, c, fun _ => 1⟩

namespace FEBasis
namespace Evaluation

open EMatrix

variable {K : Type}

/-- The function `compute_detJ` for `ElemDim == SpatialDim` (lines 78-98).  In iteration `i`
the view `dxdxi` is an `Eigen::Map` of the matrix type with `N = SpatialDim*ElemDim` rows
fixed at compile time, placed at `dx_dxi.col(i).data()` and constructed with the extents
`(SpatialDim, ElemDim)`.  In a build without `NDEBUG` (`ndebug = false`) Eigen's
`eigen_assert` on the row count stops the program in the first iteration when `N` differs from
`SpatialDim`, after `detJ` was zeroed.  In a build with `NDEBUG` the view has `N` rows and
column stride `N`, and `determinant()` goes by the compile-time row count: up to `N = 4` it is
the closed formula of the `N x N` determinant over the coefficients `(a, b)`, `a, b < N`, of
the view; beyond that it is the pivoted-LU determinant of the library on the view, taken as
`luDeterminant` (of the row count, the column count and the coefficients).  The output is a
column vector, so `detJ(i)` is cell `i`.  The status of the call and the output reference
`detJ` are returned. -/
def compute_detJ [CommRing K] (ndebug : Bool)
    (luDeterminant : Nat → Nat → (Nat → Nat → K) → K) (ElemDim : Nat) (dx_dxi : EMatrix K)
    (_detJ : EMatrix K) : Status × EMatrix K :=
  let nq := dx_dxi.cols
  let detJ : EMatrix K := zeros nq 1
  if ndebug = false ∧ 0 < nq ∧ ElemDim * ElemDim ≠ ElemDim then
    (Status.failed "Eigen assertion: the rows of the Map differ from those of its type", detJ)
  else
    (Status.ok,
      forLoop (fun i D =>
        let dxdxi := dx_dxi.colPtr i
        D.writeAt i
          (if ElemDim * ElemDim ≤ 4 then
            (dx_dxi.mapBlock dxdxi (ElemDim * ElemDim)).det
          else
            luDeterminant (ElemDim * ElemDim) ElemDim
              (fun a b => dx_dxi.mapCoeff dxdxi (ElemDim * ElemDim) a b))) nq detJ)

/-- The function `compute_detJ_side` for `ElemDim == SpatialDim == 1` (lines 115-129): the
status of the call and the output reference `detJ`.  The side index `s` is not used. -/
def compute_detJ_side_1d [One K] (_c : ContextType K) (_s : Nat) (dx_dxi : EMatrix K)
    (detJ : EMatrix K) : Status × EMatrix K :=
  if dx_dxi.cols = 1 then (Status.ok, ones 1 1)
  else (Status.failed "Only one quadrature point on side of 1D element", detJ)

/-- The function `quad_side_Jac_row` (lines 133-151): the row of the Jacobian for a side of
a quadrilateral, or the error of the `default` case. -/
def quad_side_Jac_row (s : Nat) : Except String Nat :=
  match s with
  | 0 => Except.ok 0
  | 2 => Except.ok 0
  | 1 => Except.ok 1
  | 3 => Except.ok 1
  | _ => Except.error "Invalid side number for quad"

/-- The Eigen expression `v.norm()` of a vector of two coefficients, for the square root
`sqrt` of the scalar type. -/
def norm2 [CommRing K] (sqrt : K → K) (v0 v1 : K) : K := sqrt (v0 * v0 + v1 * v1)

/-- The function `compute_detJ_side_quad` (lines 155-183), for the square root `sqrt` of the
scalar type.  In iteration `i` the view `dxdxi` is the `2 x 2` map placed at
`dx_dxi.row(i).data()`, as the source writes it, and `detJ(i)` is the norm of its row
`row`, the coefficients `(row, 0)` and `(row, 1)`. -/
def compute_detJ_side_quad [CommRing K] (sqrt : K → K) (c : ContextType K) (s : Nat)
    (dx_dxi : EMatrix K) (detJ : EMatrix K) : Status × EMatrix K :=
  if c.elem_is_quad then
    match quad_side_Jac_row s with
    | Except.error msg => (Status.failed msg, detJ)
    | Except.ok row =>
      let nq := dx_dxi.cols
      let detJ : EMatrix K := zeros nq 1
      (Status.ok,
        forLoop (fun i D =>
          let dxdxi := dx_dxi.rowPtr i
          D.writeAt i (norm2 sqrt (dx_dxi.mapCoeff dxdxi 2 row 0)
            (dx_dxi.mapCoeff dxdxi 2 row 1))) nq detJ)
  else (Status.failed "Element must be a quadrilateral", detJ)

/-- The function `compute_detJ_side` for `ElemDim == SpatialDim == 2` (lines 187-203).  The
source forwards to `compute_detJ_side_quad` naming only `c` and `s`; the call is modelled
with the two matrices passed on. -/
def compute_detJ_side_2d [CommRing K] (sqrt : K → K) (c : ContextType K) (s : Nat)
    (dx_dxi : EMatrix K) (detJ : EMatrix K) : Status × EMatrix K :=
  if c.elem_is_quad then compute_detJ_side_quad sqrt c s dx_dxi detJ
  else (Status.failed "Not implemented for element type.", detJ)

/-- The function `compute_side_tangent_and_normal` for `ElemDim == SpatialDim == 1`
(lines 221-242): the status of the call and the output references `(tangent, normal)`. -/
def compute_side_tangent_and_normal_1d [Ring K] (_c : ContextType K) (s : Nat)
    (dx_dxi : EMatrix K) (tangent normal : EMatrix K) : Status × EMatrix K × EMatrix K :=
  if dx_dxi.cols = 1 then
    let normal : EMatrix K := zeros 1 1
    let tangent : EMatrix K := zeros 1 1
    (Status.ok, tangent, normal.setCoeff 0 0 (if s = 0 then -1 else 1))
  else (Status.failed "Only one quadrature point on side of 1D element", tangent, normal)

/-- The function `compute_quad_side_tangent_and_normal` (lines 246-295), for the square root
`sqrt` of the scalar type.  In iteration `i` the view `dxdxi` is the `2 x 2` map placed at
`dx_dxi.row(i).data()` and the results are stored in the coefficients `(i, 0)` and `(i, 1)`
of `tangent` and `normal`, as the source writes them.  The local `dx` is written in every
iteration before it is read. -/
def compute_quad_side_tangent_and_normal [Field K] (sqrt : K → K) (c : ContextType K)
    (s : Nat) (dx_dxi : EMatrix K) (tangent normal : EMatrix K) :
    Status × EMatrix K × EMatrix K :=
  if c.elem_is_quad then
    match quad_side_Jac_row s with
    | Except.error msg => (Status.failed msg, tangent, normal)
    | Except.ok row =>
      let nq := dx_dxi.cols
      let tangent : EMatrix K := zeros 2 nq
      let normal : EMatrix K := zeros 2 nq
      let v : K := if s > 1 then -1 else 1
      (Status.ok,
        forLoop (fun i (TN : EMatrix K × EMatrix K) =>
          let dxdxi := dx_dxi.rowPtr i
          let dx0 := v * dx_dxi.mapCoeff dxdxi 2 row 0
          let dx1 := v * dx_dxi.mapCoeff dxdxi 2 row 1
          let n := norm2 sqrt dx0 dx1
          let dx0 := dx0 / n
          let dx1 := dx1 / n
          let tangent := (TN.1.setCoeff i 0 dx0).setCoeff i 1 (-dx1)
          let normal := (TN.2.setCoeff i 0 dx1).setCoeff i 1 (-dx0)
          (tangent, normal)) nq (tangent, normal))
  else (Status.failed "Element must be a quadrilateral", tangent, normal)

/-- The function `compute_side_tangent_and_normal` for `ElemDim == SpatialDim == 2`
(lines 299-316).  The source forwards to `compute_quad_side_tangent_and_normal` without
`dx_dxi`; the call is modelled with it passed on. -/
def compute_side_tangent_and_normal_2d [Field K] (sqrt : K → K) (c : ContextType K) (s : Nat)
    (dx_dxi : EMatrix K) (tangent normal : EMatrix K) : Status × EMatrix K × EMatrix K :=
  if c.elem_is_quad then compute_quad_side_tangent_and_normal sqrt c s dx_dxi tangent normal
  else (Status.failed "Not implemented for element type.", tangent, normal)

/-- The function `compute_dphi_dx` (lines 388-423).  In iteration `i` the view `dxidx` is
the `ElemDim x SpatialDim` map at `dxi_dx.col(i).data()` and `dphidx` the
`n_basis x SpatialDim` map at `dphi_dx.col(i).data()`.  Both views are declared with the type
of `ElemDim x SpatialDim` matrices; the views are only reached when the second assertion
holds, which for a `dxi_dx` of its type (`ElemDim*SpatialDim` rows) makes `n_basis` equal to
`ElemDim`, so that the extents given to `dphidx` are those of its type.  The status of the
call and the output reference `dphi_dx` are returned. -/
def compute_dphi_dx [CommRing K] (ElemDim SpatialDim : Nat) (fe_basis : FEBasisType K)
    (dxi_dx : EMatrix K) (dphi_dx : EMatrix K) : Status × EMatrix K :=
  let nq := fe_basis.n_q_points
  let n_basis := fe_basis.n_basis
  if dxi_dx.cols = nq then
    if dxi_dx.rows = n_basis * SpatialDim then
      let dphi_dx : EMatrix K := zeros (SpatialDim * n_basis) nq
      (Status.ok,
        forLoop (fun i M =>
          let dxidx := dxi_dx.colPtr i
          let dphidx := M.colPtr i
          forLoop (fun l M =>
            forLoop (fun j M =>
              forLoop (fun k M =>
                M.mapAdd dphidx n_basis l j
                  (fe_basis.dphi_dxi i l k * dxi_dx.mapCoeff dxidx ElemDim k j))
                ElemDim M) SpatialDim M) n_basis M) nq dphi_dx)
    else (Status.failed "Incompatible rows in dxi_dx.", dphi_dx)
  else (Status.failed "Incompatible quadrature points in FEBasis and dxi_dx.", dphi_dx)

/-- A parallelogram with the nodes `(-7,-1)`, `(-1,-1)`, `(7,1)`, `(1,1)`: the image of the
reference square under `x = 3ξ + 4η`, `y = η`. -/
def skewQuadContext : ContextType ℚ :=
  { n_nodes := 4
    nodal_coord := fun i j =>
      match i, j with
      | 0, 0 => -7
      | 0, 1 => -1
      | 1, 0 => -1
      | 1, 1 => -1
      | 2, 0 => 7
      | 2, 1 => 1
      | 3, 0 => 1
      | 3, 1 => 1
      | _, _ => 0
    elem_is_quad := true }

/-- The bilinear basis of the four-node quadrilateral, `(1 ± ξ)(1 ± η)/4`, with the two
quadrature points `(-1/2, 0)` and `(1/2, 0)`. -/
def quadBasis : FEBasisType ℚ :=
  let sx : Nat → ℚ := fun l => if l = 1 ∨ l = 2 then 1 else -1
  let sy : Nat → ℚ := fun l => if l = 2 ∨ l = 3 then 1 else -1
  let xi : Nat → ℚ := fun q => if q = 0 then -1 / 2 else 1 / 2
  { n_q_points := 2
    n_basis := 4
    phi := fun q l => (1 + sx l * xi q) / 4
    dphi_dxi := fun q l k => if k = 0 then sx l / 4 else sy l * (1 + sx l * xi q) / 4
    qp_weight := fun _ => 2
    detJxW := fun _ => 6 }

/-- The packed Jacobian of the parallelogram with two quadrature points, one block per
column: `dx_j/dξ_k = Σ_l dphi_dxi(q,l,k) * node_coord(j,l)` gives `[[3, 4], [0, 1]]` at both
points, packed column-major as `(3, 0, 4, 1)`. -/
def skewQuadJac : EMatrix ℚ :=
  ⟨4, 2, fun p =>
    if p = 0 ∨ p = 4 then 3 else if p = 2 ∨ p = 6 then 4 else if p = 3 ∨ p = 7 then 1 else 0⟩

/-- The unit square, a quadrilateral with the nodes `(0,0)`, `(1,0)`, `(1,1)`, `(0,1)`. -/
def unitSquareContext : ContextType ℚ :=
  { n_nodes := 4
    nodal_coord := fun i j =>
      match i, j with
      | 1, 0 => 1
      | 2, 0 => 1
      | 2, 1 => 1
      | 3, 1 => 1
      | _, _ => 0
    elem_is_quad := true }

/-- The packed Jacobian of the unit square mapped to itself at two quadrature points: the
identity block `(1, 0, 0, 1)` in both columns. -/
def unitSquareJac : EMatrix ℚ :=
  ⟨4, 2, fun p => if p = 0 ∨ p = 3 ∨ p = 4 ∨ p = 7 then 1 else 0⟩

/-- The packed Jacobian of the unit square mapped to itself at four quadrature points: the
identity block `(1, 0, 0, 1)` in all four columns. -/
def unitSquareJac4 : EMatrix ℚ :=
  ⟨4, 4, fun p => if p < 16 ∧ (p % 4 = 0 ∨ p % 4 = 3) then 1 else 0⟩

/-- The Jacobian of a 1-D element with one quadrature point and the value `5`. -/
def lineJac : EMatrix ℚ := ⟨1, 1, fun _ => 5⟩

end Evaluation
end FEBasis

namespace Base

/-- The class `ParameterData`: its two maps from names to values, `none` for a name that is
not a key.  `int_t` values are integers, `real_t` values are scalars of `K`. -/
structure ParameterData (K : Type) where
  _int_data : String → Option Int
  _real_data : String → Option K

namespace ParameterData

variable {K : Type}

/-- The constructor `ParameterData()`: both maps are empty. -/
def new : ParameterData K := ⟨fun _ => none, fun _ => none⟩

/-- The member `_add_to_map` (lines 64-75) on a map `m`: the status and the map after the
call, in which a new key holds `T()`, given as `dflt`. -/
def _add_to_map {T : Type} (dflt : T) (nm : String) (m : String → Option T) :
    Status × (String → Option T) :=
  match m nm with
  | some _ => (Status.failed ("Data already exists for name: " ++ nm), m)
  | none => (Status.ok, fun k => if k = nm then some dflt else m k)

/-- The member `_get_from_map` (lines 78-88) on a map `m`. -/
def _get_from_map {T : Type} (nm : String) (m : String → Option T) : Except String T :=
  match m nm with
  | none => Except.error ("Data does not exist for name: " ++ nm)
  | some v => Except.ok v

/-- The specialisation `add<int>` (lines 28-32): the status and the store after the call. -/
def add_int (self : ParameterData K) (nm : String) : Status × ParameterData K :=
  ((_add_to_map (0 : Int) nm self._int_data).1,
    { self with _int_data := (_add_to_map (0 : Int) nm self._int_data).2 })

/-- The specialisation `add<real_t>` (lines 34-38). -/
def add_real [Zero K] (self : ParameterData K) (nm : String) : Status × ParameterData K :=
  ((_add_to_map (0 : K) nm self._real_data).1,
    { self with _real_data := (_add_to_map (0 : K) nm self._real_data).2 })

/-- The specialisation `get<int>` (lines 49-53). -/
def get_int (self : ParameterData K) (nm : String) : Except String Int :=
  _get_from_map nm self._int_data

/-- The specialisation `get<real_t>` (lines 56-60). -/
def get_real (self : ParameterData K) (nm : String) : Except String K :=
  _get_from_map nm self._real_data

end ParameterData
end Base

end MAST

namespace MAST
namespace FEBasis
namespace Evaluation

open Finset EMatrix

variable {K : Type}

/-- The side measure that the contract of `compute_detJ_side` describes for a quadrilateral:
`sqrt((dx/dξ)² + (dy/dξ)²)` at `q` for the sides `0` and `2` and
`sqrt((dx/dη)² + (dy/dη)²)` for the sides `1` and `3`, with
`dx_j/dξ_k = Σ_l dphi_dxi(q,l,k) * node_coord(j,l)`. -/
def contractSideMeasure [CommRing K] (sqrt : K → K) (c : ContextType K)
    (fe_basis : FEBasisType K) (node_coord : EMatrix K) (s q : Nat) : K :=
  let k := if s = 0 ∨ s = 2 then 0 else 1
  norm2 sqrt (∑ l in range c.n_nodes, fe_basis.dphi_dxi q l k * node_coord.coeff 0 l)
    (∑ l in range c.n_nodes, fe_basis.dphi_dxi q l k * node_coord.coeff 1 l)

/-- The side tangent that the contract of `compute_side_tangent_and_normal` describes for a
quadrilateral: `v * r / |r|`, where `r` is the row of the Jacobian block at `q` that
`quad_side_Jac_row(s)` selects and `v = -1` for `s > 1` and `+1` otherwise. -/
def contractSideTangent [Field K] (sqrt : K → K) (dx_dxi : EMatrix K) (s q : Nat) : K × K :=
  let row := if s = 0 ∨ s = 2 then 0 else 1
  let v : K := if s > 1 then -1 else 1
  let r0 := dx_dxi.packedBlock 2 q row 0
  let r1 := dx_dxi.packedBlock 2 q row 1
  (v * r0 / norm2 sqrt r0 r1, v * r1 / norm2 sqrt r0 r1)

/-- The vector that a `2 x nq` output matrix holds for quadrature point `q`: its column
`q`. -/
def vectorAt (M : EMatrix K) (q : Nat) : K × K := (M.coeff 0 q, M.coeff 1 q)

/-- The 90-degree rotation `(t_y, -t_x)` of a vector `(t_x, t_y)`. -/
def rotate90 [Neg K] (t : K × K) : K × K := (t.2, -t.1)

/-- The tangent that `compute_side_tangent_and_normal` returns for side `0` of the
parallelogram. -/
def skewQuadTangent : EMatrix ℚ :=
  (compute_side_tangent_and_normal_2d Rat.sqrt skewQuadContext 0 skewQuadJac (zeros 0 0)
    (zeros 0 0)).2.1

/-- The normal that `compute_side_tangent_and_normal` returns for side `0` of the
parallelogram. -/
def skewQuadNormal : EMatrix ℚ :=
  (compute_side_tangent_and_normal_2d Rat.sqrt skewQuadContext 0 skewQuadJac (zeros 0 0)
    (zeros 0 0)).2.2

/-- The tangent that `compute_side_tangent_and_normal` returns for side `s` of the unit
square. -/
def unitSquareTangent (s : Nat) : EMatrix ℚ :=
  (compute_side_tangent_and_normal_2d Rat.sqrt unitSquareContext s unitSquareJac (zeros 0 0)
    (zeros 0 0)).2.1

/-- The normal that `compute_side_tangent_and_normal` returns for side `s` of the unit
square. -/
def unitSquareNormal (s : Nat) : EMatrix ℚ :=
  (compute_side_tangent_and_normal_2d Rat.sqrt unitSquareContext s unitSquareJac (zeros 0 0)
    (zeros 0 0)).2.2

end Evaluation
end FEBasis
end MAST

namespace MAST
namespace Base
namespace ParameterData

variable {K : Type}

/-- A use of a `ParameterData` store by its owner: a call of `add<int>`, `add<real_t>`,
`get<int>` or `get<real_t>`, or an assignment through the reference that an earlier `add`
of the name returned. -/
inductive Call (K : Type) where
  | add_int (nm : String) : Call K
  | add_real (nm : String) : Call K
  | get_int (nm : String) : Call K
  | get_real (nm : String) : Call K
  | write_int (nm : String) (v : Int) : Call K
  | write_real (nm : String) (v : K) : Call K

/-- The store after one use.  An `add` leaves what `add_int` or `add_real` leaves; `get` is a
`const` member that returns by value; an assignment through a reference changes the value of
its name, which is a key because the reference came from an `add`. -/
def Call.run [Zero K] : Call K → ParameterData K → ParameterData K
  | Call.add_int nm, s => (s.add_int nm).2
  | Call.add_real nm, s => (s.add_real nm).2
  | Call.get_int _, s => s
  | Call.get_real _, s => s
  | Call.write_int nm v, s =>
    { s with _int_data := fun k =>
        if k = nm ∧ (s._int_data nm).isSome then some v else s._int_data k }
  | Call.write_real nm v, s =>
    { s with _real_data := fun k =>
        if k = nm ∧ (s._real_data nm).isSome then some v else s._real_data k }

/-- The store after a sequence of uses, first to last. -/
def runCalls [Zero K] (calls : List (Call K)) (s : ParameterData K) : ParameterData K :=
  calls.foldl (fun s call => call.run s) s

end ParameterData
end Base
end MAST

namespace MAST
namespace Physics
namespace Elasticity
namespace ElastoPlasticity

end ElastoPlasticity
end Elasticity
end Physics
end MAST

namespace MAST
namespace FEBasis
namespace Evaluation

open EMatrix

/-- The nodal coordinates that `compute_xyz` gathers for the triangle. -/
def triNodeCoord : EMatrix ℚ :=
  (compute_xyz 2 triContext triBasis (zeros 0 0) (zeros 0 0)).1

/-- The nodal coordinates that `compute_xyz` gathers for the parallelogram. -/
def skewQuadNodeCoord : EMatrix ℚ :=
  (compute_xyz 2 skewQuadContext quadBasis (zeros 0 0) (zeros 0 0)).1

end Evaluation
end FEBasis
end MAST

/-! ## Theorems -/

namespace MAST

open Finset

section Loops

variable {K : Type}

theorem forLoop_succ {σ : Type} (body : Nat → σ → σ) (n : Nat) (s : σ) :
    forLoop body (n + 1) s = body n (forLoop body n s) := rfl

/-- Cells are addressed uniquely by (column, row) when the row index is below the extent. -/
theorem cell_inj {r i j i' j' : Nat} (hj : j < r) (hj' : j' < r)
    (h : i * r + j = i' * r + j') : i = i' ∧ j = j' := by
  have hr : 0 < r := by omega
  have h1 : (i * r + j) / r = i := by
    rw [Nat.add_comm, Nat.add_mul_div_right _ _ hr, Nat.div_eq_of_lt hj, Nat.zero_add]
  have h2 : (i' * r + j') / r = i' := by
    rw [Nat.add_comm, Nat.add_mul_div_right _ _ hr, Nat.div_eq_of_lt hj', Nat.zero_add]
  have hi : i = i' := by rw [← h1, ← h2, h]
  subst hi
  exact ⟨rfl, by omega⟩

theorem cell_div {r i j : Nat} (hj : j < r) : (i * r + j) / r = i := by
  have hr : 0 < r := by omega
  rw [Nat.add_comm, Nat.add_mul_div_right _ _ hr, Nat.div_eq_of_lt hj, Nat.zero_add]

theorem cell_mod {r i j : Nat} (hj : j < r) : (i * r + j) % r = j := by
  rw [Nat.add_comm, Nat.add_mul_mod_self_right, Nat.mod_eq_of_lt hj]

theorem EMatrix.writeAt_data (M : EMatrix K) (p : Nat) (v : K) (x : Nat) :
    (M.writeAt p v).data x = if x = p then v else M.data x := by
  simp [EMatrix.writeAt, Function.update_apply]

theorem EMatrix.addAt_data [AddMonoid K] (M : EMatrix K) (p : Nat) (v : K) (x : Nat) :
    (M.addAt p v).data x = M.data x + if x = p then v else 0 := by
  unfold EMatrix.addAt
  rw [EMatrix.writeAt_data]
  by_cases h : x = p
  · simp [h]
  · simp [h]

/-- A loop whose body keeps the extents and adds `g t` to the storage adds the sum of the
`g t` over its iterations. -/
theorem forLoop_adds [AddCommMonoid K] (r : Nat) (body : Nat → EMatrix K → EMatrix K)
    (g : Nat → Nat → K)
    (h : ∀ t M, M.rows = r → (body t M).rows = r ∧ (body t M).cols = M.cols ∧
      ∀ x, (body t M).data x = M.data x + g t x) :
    ∀ n M, M.rows = r → (forLoop body n M).rows = r ∧ (forLoop body n M).cols = M.cols ∧
      ∀ x, (forLoop body n M).data x = M.data x + ∑ t in range n, g t x := by
  intro n
  induction n with
  | zero => intro M hM; simp [forLoop, hM]
  | succ n ih =>
    intro M hM
    obtain ⟨h1, h2, h3⟩ := ih M hM
    obtain ⟨b1, b2, b3⟩ := h n _ h1
    refine ⟨by rw [forLoop_succ]; exact b1, by rw [forLoop_succ, b2, h2], ?_⟩
    intro x
    rw [forLoop_succ, b3, h3, Finset.sum_range_succ, add_assoc]

/-- A loop whose iteration `t` stores `w x` in the cells `x` with `P t x` and keeps the other
cells stores `w x` in every cell that some iteration selects. -/
theorem forLoop_sets (r : Nat) (body : Nat → EMatrix K → EMatrix K)
    (P : Nat → Nat → Prop) (w : Nat → K) :
    ∀ n, (∀ t, t < n → ∀ M, M.rows = r → (body t M).rows = r ∧ (body t M).cols = M.cols ∧
        (∀ x, P t x → (body t M).data x = w x) ∧
        (∀ x, ¬ P t x → (body t M).data x = M.data x)) →
      ∀ M, M.rows = r → (forLoop body n M).rows = r ∧ (forLoop body n M).cols = M.cols ∧
        (∀ x, (∃ t, t < n ∧ P t x) → (forLoop body n M).data x = w x) ∧
        (∀ x, (¬ ∃ t, t < n ∧ P t x) → (forLoop body n M).data x = M.data x) := by
  intro n
  induction n with
  | zero => intro _ M hM; simp [forLoop, hM]
  | succ n ih =>
    intro h M hM
    obtain ⟨h1, h2, h3, h4⟩ := ih (fun t ht => h t (by omega)) M hM
    obtain ⟨b1, b2, b3, b4⟩ := h n (by omega) _ h1
    refine ⟨by rw [forLoop_succ]; exact b1, by rw [forLoop_succ, b2, h2], ?_, ?_⟩
    · rintro x ⟨t, ht, hP⟩
      rw [forLoop_succ]
      by_cases hn : P n x
      · exact b3 x hn
      · rw [b4 x hn]
        apply h3
        have : t ≠ n := fun e => hn (e ▸ hP)
        exact ⟨t, by omega, hP⟩
    · intro x hx
      rw [forLoop_succ]
      have hn : ¬ P n x := fun hP => hx ⟨n, by omega, hP⟩
      rw [b4 x hn]
      apply h4
      rintro ⟨t, ht, hP⟩
      exact hx ⟨t, by omega, hP⟩

end Loops

end MAST

namespace MAST
namespace FEBasis
namespace Evaluation

open Finset EMatrix

variable {K : Type}

/-- The gather loop of `compute_xyz`: the extents and every coefficient of `node_coord`. -/
theorem node_coord_loop (S : Nat) (c : ContextType K) (M : EMatrix K) (hM : M.rows = S) (n : Nat) :
    let nc := forLoop (fun i nc =>
      forLoop (fun j nc => nc.setCoeff j i (c.nodal_coord i j)) S nc) n M
    nc.rows = S ∧ nc.cols = M.cols ∧
      ∀ j k, j < S → k < n → nc.coeff j k = c.nodal_coord k j := by
  intro nc
  have inner : ∀ i, ∀ N : EMatrix K, N.rows = S →
      (forLoop (fun j nc => nc.setCoeff j i (c.nodal_coord i j)) S N).rows = S ∧
      (forLoop (fun j nc => nc.setCoeff j i (c.nodal_coord i j)) S N).cols = N.cols ∧
      (∀ x, (∃ j, j < S ∧ x = i * S + j) →
        (forLoop (fun j nc => nc.setCoeff j i (c.nodal_coord i j)) S N).data x
          = c.nodal_coord (x / S) (x % S)) ∧
      (∀ x, (¬ ∃ j, j < S ∧ x = i * S + j) →
        (forLoop (fun j nc => nc.setCoeff j i (c.nodal_coord i j)) S N).data x = N.data x) := by
    intro i N hN
    refine forLoop_sets S _ (fun j x => x = i * S + j)
      (fun x => c.nodal_coord (x / S) (x % S)) S ?_ N hN
    intro j hj N hN
    refine ⟨hN, rfl, ?_, ?_⟩
    · intro x hx
      subst hx
      simp only [setCoeff, writeAt_data, hN, if_true, cell_div hj, cell_mod hj]
    · intro x hx
      simp only [setCoeff, writeAt_data, hN, if_neg hx]
  have outer := forLoop_sets S (fun i nc =>
      forLoop (fun j nc => nc.setCoeff j i (c.nodal_coord i j)) S nc)
      (fun i x => ∃ j, j < S ∧ x = i * S + j)
      (fun x => c.nodal_coord (x / S) (x % S)) n
      (fun i _ N hN => inner i N hN) M hM
  obtain ⟨o1, o2, o3, _⟩ := outer
  refine ⟨o1, o2, ?_⟩
  intro j k hj hk
  have := o3 (k * S + j) ⟨k, hk, j, hj, rfl⟩
  simp only [cell_div hj, cell_mod hj] at this
  show nc.data (k * nc.rows + j) = _
  rw [show nc.rows = S from o1, this]

/-- The interpolation loop of `compute_xyz`: what it adds to every coefficient. -/
theorem xyz_loop [CommRing K] (S : Nat) (fe : FEBasisType K) (nc : EMatrix K) (n_nodes : Nat)
    (M : EMatrix K) (hM : M.rows = S) (n : Nat) :
    let xyz := forLoop (fun i x =>
      forLoop (fun k x =>
        forLoop (fun j x => x.addCoeff j i (fe.phi i k * nc.coeff j k)) S x) n_nodes x) n M
    xyz.rows = S ∧ xyz.cols = M.cols ∧
      ∀ j q, j < S → q < n →
        xyz.coeff j q = M.coeff j q + ∑ k in range n_nodes, fe.phi q k * nc.coeff j k := by
  intro xyz
  have l3 : ∀ i k, ∀ N : EMatrix K, N.rows = S →
      (forLoop (fun j x => x.addCoeff j i (fe.phi i k * nc.coeff j k)) S N).rows = S ∧
      (forLoop (fun j x => x.addCoeff j i (fe.phi i k * nc.coeff j k)) S N).cols = N.cols ∧
      ∀ x, (forLoop (fun j x => x.addCoeff j i (fe.phi i k * nc.coeff j k)) S N).data x
        = N.data x + ∑ j in range S,
            if x = i * S + j then fe.phi i k * nc.coeff j k else 0 := by
    intro i k
    refine forLoop_adds S _ _ ?_ S
    intro j N hN
    refine ⟨hN, rfl, fun x => ?_⟩
    simp only [addCoeff, addAt_data, hN]
  have l2 : ∀ i, ∀ N : EMatrix K, N.rows = S →
      (forLoop (fun k x =>
        forLoop (fun j x => x.addCoeff j i (fe.phi i k * nc.coeff j k)) S x) n_nodes N).rows = S ∧
      (forLoop (fun k x =>
        forLoop (fun j x => x.addCoeff j i (fe.phi i k * nc.coeff j k)) S x) n_nodes N).cols
          = N.cols ∧
      ∀ x, (forLoop (fun k x =>
        forLoop (fun j x => x.addCoeff j i (fe.phi i k * nc.coeff j k)) S x) n_nodes N).data x
        = N.data x + ∑ k in range n_nodes, ∑ j in range S,
            if x = i * S + j then fe.phi i k * nc.coeff j k else 0 := by
    intro i
    exact forLoop_adds S _ _ (fun k N hN => l3 i k N hN) n_nodes
  obtain ⟨o1, o2, o3⟩ := forLoop_adds S _ _ (fun i N hN => l2 i N hN) n M hM
  refine ⟨o1, o2, ?_⟩
  intro j q hj hq
  show xyz.data (q * xyz.rows + j) = M.data (q * M.rows + j) + _
  rw [show xyz.rows = S from o1, o3, hM]
  congr 1
  rw [Finset.sum_eq_single_of_mem q (mem_range.mpr hq)]
  · refine Finset.sum_congr rfl (fun k _ => ?_)
    rw [Finset.sum_eq_single_of_mem j (mem_range.mpr hj)]
    · simp
    · intro j' hj' hne
      rw [if_neg]
      intro e
      exact hne (cell_inj hj (mem_range.mp hj') e).2.symm
  · intro i _ hne
    refine Finset.sum_eq_zero (fun k _ => Finset.sum_eq_zero (fun j' hj' => ?_))
    rw [if_neg]
    intro e
    exact hne (cell_inj hj (mem_range.mp hj') e).1.symm

/-- Claim C9: `compute_xyz` returns `node_coord` of shape `SpatialDim x n_nodes` with
`node_coord(j,k) = context.nodal_coord(k,j)` and `xyz` of shape `SpatialDim x n_q_points`
with `xyz(j,q) = Σ_{k < n_nodes} phi(q,k) * node_coord(j,k)`, and the previous contents of
the two output matrices do not influence the result. -/
theorem compute_xyz_spec [CommRing K] (SpatialDim : Nat) (c : ContextType K)
    (fe_basis : FEBasisType K) (node_coord xyz : EMatrix K) (j k q : Nat)
    (hj : j < SpatialDim) (hk : k < c.n_nodes) (hq : q < fe_basis.n_q_points) :
    (compute_xyz SpatialDim c fe_basis node_coord xyz).1.rows = SpatialDim ∧
    (compute_xyz SpatialDim c fe_basis node_coord xyz).1.cols = c.n_nodes ∧
    (compute_xyz SpatialDim c fe_basis node_coord xyz).2.rows = SpatialDim ∧
    (compute_xyz SpatialDim c fe_basis node_coord xyz).2.cols = fe_basis.n_q_points ∧
    (compute_xyz SpatialDim c fe_basis node_coord xyz).1.coeff j k = c.nodal_coord k j ∧
    (compute_xyz SpatialDim c fe_basis node_coord xyz).2.coeff j q
      = ∑ l in range c.n_nodes, fe_basis.phi q l *
          (compute_xyz SpatialDim c fe_basis node_coord xyz).1.coeff j l ∧
    ∀ node_coord' xyz' : EMatrix K,
      compute_xyz SpatialDim c fe_basis node_coord' xyz'
        = compute_xyz SpatialDim c fe_basis node_coord xyz := by
  obtain ⟨n1, n2, n3⟩ := node_coord_loop SpatialDim c (zeros SpatialDim c.n_nodes) rfl c.n_nodes
  obtain ⟨x1, x2, x3⟩ := xyz_loop SpatialDim fe_basis
    (forLoop (fun i nc =>
      forLoop (fun j nc => nc.setCoeff j i (c.nodal_coord i j)) SpatialDim nc) c.n_nodes
      (zeros SpatialDim c.n_nodes)) c.n_nodes (zeros SpatialDim fe_basis.n_q_points) rfl
    fe_basis.n_q_points
  refine ⟨n1, n2, x1, x2, n3 j k hj hk, ?_, fun _ _ => rfl⟩
  have := x3 j q hj hq
  simpa [compute_xyz, zeros, coeff] using this

end Evaluation
end FEBasis
end MAST

namespace MAST
namespace FEBasis
namespace Evaluation

open Finset EMatrix

variable {K : Type}

/-- A packed row index `k * S + j` of an `S x E` block is below `S * E`. -/
theorem packed_lt {S E j k : Nat} (hj : j < S) (hk : k < E) : k * S + j < S * E := by
  calc k * S + j < k * S + S := by omega
    _ = (k + 1) * S := by ring
    _ ≤ E * S := Nat.mul_le_mul_right S hk
    _ = S * E := Nat.mul_comm _ _

/-- Two cells of packed blocks coincide only for the same column, block column and row. -/
theorem packed_inj {S E i j k i' j' k' : Nat} (hj : j < S) (hk : k < E) (hj' : j' < S)
    (hk' : k' < E) (h : i * (S * E) + k * S + j = i' * (S * E) + k' * S + j') :
    i = i' ∧ k = k' ∧ j = j' := by
  rw [Nat.add_assoc, Nat.add_assoc] at h
  obtain ⟨h1, h2⟩ := cell_inj (packed_lt hj hk) (packed_lt hj' hk') h
  obtain ⟨h3, h4⟩ := cell_inj hj hj' h2
  exact ⟨h1, h3, h4⟩

/-- The assembly loop of `compute_Jac` in a build with `NDEBUG`: what it adds to every
storage cell.  The view of iteration `i` has the column stride `SpatialDim*ElemDim`, so the
term of `(j, k)` goes to cell `i*(S*E) + k*(S*E) + j`. -/
theorem Jac_loop [CommRing K] (E S : Nat) (fe : FEBasisType K) (nc : EMatrix K) (n_nodes : Nat)
    (M : EMatrix K) (hM : M.rows = S * E) (n : Nat) :
    let J := forLoop (fun i M =>
      let dxdxi := M.colPtr i
      forLoop (fun l M =>
        forLoop (fun j M =>
          forLoop (fun k M =>
            M.mapAdd dxdxi (S * E) j k (fe.dphi_dxi i l k * nc.coeff j l)) E M) S M)
        n_nodes M) n M
    J.rows = S * E ∧ J.cols = M.cols ∧
      ∀ x, J.data x = M.data x + ∑ i in range n, ∑ l in range n_nodes, ∑ j in range S,
        ∑ k in range E,
          if x = i * (S * E) + k * (S * E) + j then fe.dphi_dxi i l k * nc.coeff j l
          else 0 := by
  intro J
  have l4 : ∀ p i l j, ∀ N : EMatrix K, N.rows = S * E →
      (forLoop (fun k M => M.mapAdd p (S * E) j k (fe.dphi_dxi i l k * nc.coeff j l)) E N).rows
        = S * E ∧
      (forLoop (fun k M => M.mapAdd p (S * E) j k (fe.dphi_dxi i l k * nc.coeff j l)) E N).cols
        = N.cols ∧
      ∀ x, (forLoop (fun k M =>
          M.mapAdd p (S * E) j k (fe.dphi_dxi i l k * nc.coeff j l)) E N).data x
        = N.data x + ∑ k in range E,
            if x = p + k * (S * E) + j then fe.dphi_dxi i l k * nc.coeff j l else 0 := by
    intro p i l j
    refine forLoop_adds (S * E) _ _ ?_ E
    intro k N hN
    exact ⟨hN, rfl, fun x => by simp only [mapAdd, addAt_data]⟩
  have l3 : ∀ p i l, ∀ N : EMatrix K, N.rows = S * E →
      (forLoop (fun j M => forLoop (fun k M =>
        M.mapAdd p (S * E) j k (fe.dphi_dxi i l k * nc.coeff j l)) E M) S N).rows = S * E ∧
      (forLoop (fun j M => forLoop (fun k M =>
        M.mapAdd p (S * E) j k (fe.dphi_dxi i l k * nc.coeff j l)) E M) S N).cols = N.cols ∧
      ∀ x, (forLoop (fun j M => forLoop (fun k M =>
        M.mapAdd p (S * E) j k (fe.dphi_dxi i l k * nc.coeff j l)) E M) S N).data x
        = N.data x + ∑ j in range S, ∑ k in range E,
            if x = p + k * (S * E) + j then fe.dphi_dxi i l k * nc.coeff j l else 0 := by
    intro p i l
    exact forLoop_adds (S * E) _ _ (fun j N hN => l4 p i l j N hN) S
  have l2 : ∀ p i, ∀ N : EMatrix K, N.rows = S * E →
      (forLoop (fun l M => forLoop (fun j M => forLoop (fun k M =>
        M.mapAdd p (S * E) j k (fe.dphi_dxi i l k * nc.coeff j l)) E M) S M) n_nodes N).rows
          = S * E ∧
      (forLoop (fun l M => forLoop (fun j M => forLoop (fun k M =>
        M.mapAdd p (S * E) j k (fe.dphi_dxi i l k * nc.coeff j l)) E M) S M) n_nodes N).cols
          = N.cols ∧
      ∀ x, (forLoop (fun l M => forLoop (fun j M => forLoop (fun k M =>
        M.mapAdd p (S * E) j k (fe.dphi_dxi i l k * nc.coeff j l)) E M) S M) n_nodes N).data x
        = N.data x + ∑ l in range n_nodes, ∑ j in range S, ∑ k in range E,
            if x = p + k * (S * E) + j then fe.dphi_dxi i l k * nc.coeff j l else 0 := by
    intro p i
    exact forLoop_adds (S * E) _ _ (fun l N hN => l3 p i l N hN) n_nodes
  refine forLoop_adds (S * E) _ _ ?_ n M hM
  intro i N hN
  have := l2 (N.colPtr i) i N hN
  simpa only [colPtr, hN] using this

/-- The Eigen assertion on the extents of the view decides the status of `compute_Jac`: the
call stops exactly in a build without `NDEBUG`, with at least one quadrature point and
`SpatialDim*ElemDim ≠ SpatialDim`. -/
theorem compute_Jac_status [CommRing K] (ndebug : Bool) (ElemDim SpatialDim : Nat)
    (c : ContextType K) (fe_basis : FEBasisType K) (node_coord dx_dxi : EMatrix K) :
    (compute_Jac ndebug ElemDim SpatialDim c fe_basis node_coord dx_dxi).1 ≠ Status.ok
      ↔ ndebug = false ∧ 0 < fe_basis.n_q_points ∧ SpatialDim * ElemDim ≠ SpatialDim := by
  unfold compute_Jac
  by_cases h : ndebug = false ∧ 0 < fe_basis.n_q_points ∧ SpatialDim * ElemDim ≠ SpatialDim
  · simp only [if_pos h]
    simp [h]
  · simp only [if_neg h]
    simp [h]

/-- For `ElemDim = 1` the view of `compute_Jac` has the extents of its type, and in either
build the call succeeds and returns `dx_dxi` with `SpatialDim` rows and `n_q_points` columns
whose entry `j` of column `q` is `Σ_{l < n_nodes} dphi_dxi(q,l,0) * node_coord(j,l)`. -/
theorem compute_Jac_elem_dim_one [CommRing K] (ndebug : Bool) (SpatialDim : Nat)
    (c : ContextType K) (fe_basis : FEBasisType K) (node_coord dx_dxi : EMatrix K) (q j : Nat)
    (hq : q < fe_basis.n_q_points) (hj : j < SpatialDim) :
    (compute_Jac ndebug 1 SpatialDim c fe_basis node_coord dx_dxi).1 = Status.ok ∧
    (compute_Jac ndebug 1 SpatialDim c fe_basis node_coord dx_dxi).2.rows = SpatialDim * 1 ∧
    (compute_Jac ndebug 1 SpatialDim c fe_basis node_coord dx_dxi).2.cols
      = fe_basis.n_q_points ∧
    (compute_Jac ndebug 1 SpatialDim c fe_basis node_coord dx_dxi).2.packedBlock SpatialDim
        q j 0
      = ∑ l in range c.n_nodes, fe_basis.dphi_dxi q l 0 * node_coord.coeff j l := by
  obtain ⟨h1, h2, h3⟩ := Jac_loop 1 SpatialDim fe_basis node_coord c.n_nodes
    (zeros (SpatialDim * 1) fe_basis.n_q_points) rfl fe_basis.n_q_points
  have hno : ¬ (ndebug = false ∧ 0 < fe_basis.n_q_points ∧ SpatialDim * 1 ≠ SpatialDim) := by
    simp
  have e : compute_Jac ndebug 1 SpatialDim c fe_basis node_coord dx_dxi
      = (Status.ok, forLoop (fun i M =>
          let dxdxi := M.colPtr i
          forLoop (fun l M =>
            forLoop (fun j M =>
              forLoop (fun k M =>
                M.mapAdd dxdxi (SpatialDim * 1) j k
                  (fe_basis.dphi_dxi i l k * node_coord.coeff j l)) 1 M) SpatialDim M)
            c.n_nodes M) fe_basis.n_q_points
          (zeros (SpatialDim * 1) fe_basis.n_q_points)) := by
    unfold compute_Jac
    rw [if_neg hno]
  rw [e]
  refine ⟨rfl, h1, h2, ?_⟩
  have key : ∀ X : EMatrix K, X.rows = SpatialDim * 1 →
      (∀ x, X.data x = (zeros (SpatialDim * 1) fe_basis.n_q_points : EMatrix K).data x +
        ∑ i in range fe_basis.n_q_points, ∑ l in range c.n_nodes, ∑ j in range SpatialDim,
          ∑ k in range 1,
            if x = i * (SpatialDim * 1) + k * (SpatialDim * 1) + j
            then fe_basis.dphi_dxi i l k * node_coord.coeff j l else 0) →
      X.packedBlock SpatialDim q j 0
        = ∑ l in range c.n_nodes, fe_basis.dphi_dxi q l 0 * node_coord.coeff j l := by
    intro X hX hdata
    show X.data (q * X.rows + (0 * SpatialDim + j)) = _
    rw [hX, hdata]
    simp only [zeros, zero_add, Finset.sum_range_one, Nat.zero_mul, Nat.add_zero, Nat.mul_one,
      Nat.zero_add]
    rw [Finset.sum_eq_single_of_mem q (mem_range.mpr hq)]
    · refine Finset.sum_congr rfl (fun l _ => ?_)
      rw [Finset.sum_eq_single_of_mem j (mem_range.mpr hj)]
      · simp
      · intro j' hj' hne
        rw [if_neg]
        intro e'
        exact hne (cell_inj hj (mem_range.mp hj') e').2.symm
    · intro i _ hne
      refine Finset.sum_eq_zero (fun l _ => Finset.sum_eq_zero (fun j' hj' => ?_))
      rw [if_neg]
      intro e'
      exact hne (cell_inj hj (mem_range.mp hj') e').1.symm
  exact key _ h1 h3

/-- The product loop of `compute_detJxW`. -/
theorem detJxW_loop [CommRing K] (fe : FEBasisType K) (detJ M : EMatrix K) (n : Nat) :
    let W := forLoop (fun i W => W.writeAt i (detJ.data i * fe.qp_weight i)) n M
    W.rows = M.rows ∧ W.cols = M.cols ∧
      (∀ i, i < n → W.data i = detJ.data i * fe.qp_weight i) ∧
      (∀ i, n ≤ i → W.data i = M.data i) := by
  induction n with
  | zero => simp [forLoop]
  | succ n ih =>
    obtain ⟨h1, h2, h3, h4⟩ := ih
    refine ⟨h1, h2, ?_, ?_⟩
    · intro i hi
      simp only [forLoop_succ, writeAt_data]
      by_cases e : i = n
      · simp [e]
      · rw [if_neg e]; exact h3 i (by omega)
    · intro i hi
      simp only [forLoop_succ, writeAt_data]
      rw [if_neg (by omega)]
      exact h4 i (by omega)

/-- Claim C8: `compute_detJxW` succeeds if and only if the basis's quadrature-point count
equals the length of `detJ`; when it succeeds the output has exactly that many entries (one
row of that many columns) and `detJxW(i) = detJ(i) * qp_weight(i)` for every `i`; when the
counts differ it fails and the output keeps its previous contents: nothing truncated or
padded is produced. -/
theorem compute_detJxW_spec [CommRing K] (fe_basis : FEBasisType K) (detJ detJxW : EMatrix K) :
    ((compute_detJxW fe_basis detJ detJxW).1 = Status.ok
      ↔ fe_basis.n_q_points = detJ.cols) ∧
    ((compute_detJxW fe_basis detJ detJxW).1 = Status.ok →
      (compute_detJxW fe_basis detJ detJxW).2.rows = 1 ∧
      (compute_detJxW fe_basis detJ detJxW).2.cols = fe_basis.n_q_points ∧
      ∀ i, i < fe_basis.n_q_points →
        (compute_detJxW fe_basis detJ detJxW).2.data i = detJ.data i * fe_basis.qp_weight i ∧
        (compute_detJxW fe_basis detJ detJxW).2.coeff 0 i
          = detJ.data i * fe_basis.qp_weight i) ∧
    (fe_basis.n_q_points ≠ detJ.cols →
      (compute_detJxW fe_basis detJ detJxW).1 ≠ Status.ok ∧
      (compute_detJxW fe_basis detJ detJxW).2 = detJxW) := by
  by_cases h : fe_basis.n_q_points = detJ.cols
  · obtain ⟨h1, h2, h3, _⟩ := detJxW_loop fe_basis detJ (zeros 1 detJ.cols) detJ.cols
    simp only [compute_detJxW, if_pos h]
    refine ⟨by simp [h], fun _ => ⟨h1, by rw [h2, h]; rfl, fun i hi => ?_⟩,
      fun hne => absurd h hne⟩
    have := h3 i (by omega)
    refine ⟨this, ?_⟩
    show (forLoop _ detJ.cols (zeros 1 detJ.cols)).data
      (i * (forLoop _ detJ.cols (zeros 1 detJ.cols)).rows + 0) = _
    rw [show (forLoop _ detJ.cols (zeros 1 detJ.cols)).rows = 1 from h1]
    simpa using this
  · have e : compute_detJxW fe_basis detJ detJxW
        = (Status.failed "Incompatible number of quadrature points of detJ and FEBasis.",
            detJxW) := by
      unfold compute_detJxW
      rw [if_neg h]
    rw [e]
    exact ⟨by simp [h], fun hok => by simp at hok, fun _ => ⟨by simp, rfl⟩⟩

end Evaluation
end FEBasis
end MAST

namespace MAST
namespace FEBasis
namespace Evaluation
open EMatrix

/-- The packed Jacobian of the triangle: `[[2, 1], [1, 1]]` packed in both columns. -/
theorem triJac_cells : triJac.rows = 4 ∧ triJac.cols = 2 ∧
    triJac.data 0 = 2 ∧ triJac.data 1 = 1 ∧ triJac.data 2 = 1 ∧ triJac.data 3 = 1 ∧
    triJac.data 4 = 2 ∧ triJac.data 5 = 1 ∧ triJac.data 6 = 1 ∧ triJac.data 7 = 1 := by
  simp [triJac]

/-- Claim C1, evaluated on the triangle: the packed Jacobian has a block of non-zero
determinant at both quadrature points and `compute_Jac_inv` returns `dxi_dx` with the same
number of columns, but the product of the block of `dx_dxi` and the block of `dxi_dx` at
quadrature point `0` has the entry `4` at `(0,0)`: it is not the identity. -/
theorem compute_Jac_inv_at_triangle :
    (∀ q : Fin 2, (triJac.packedSquare 2 q).det ≠ 0) ∧
    (compute_Jac_inv 2 triJac (zeros 0 0)).cols = triJac.cols ∧
    (triJac.packedSquare 2 0 * (compute_Jac_inv 2 triJac (zeros 0 0)).packedSquare 2 0) 0 0 = 4 ∧
    triJac.packedSquare 2 0 * (compute_Jac_inv 2 triJac (zeros 0 0)).packedSquare 2 0 ≠ 1 := by
  obtain ⟨hr, hc, d0, d1, d2, d3, d4, d5, d6, d7⟩ := triJac_cells
  have e00 : (triJac.packedSquare 2 0 *
      (compute_Jac_inv 2 triJac (zeros 0 0)).packedSquare 2 0) 0 0 = 4 := by
    simp [Matrix.mul_apply, Fin.sum_univ_two, packedSquare, packedBlock, coeff, compute_Jac_inv,
      forLoop, mapAssign, mapBlock, rowPtr, inverse, Matrix.det_fin_two, Matrix.adjugate_fin_two,
      zeros, hr, hc, d0, d1, d2, d3, d4]
    norm_num
  refine ⟨?_, ?_, e00, ?_⟩
  · intro q
    fin_cases q <;>
      (simp [Matrix.det_fin_two, packedSquare, packedBlock, coeff, hr, d0, d1, d2, d3, d4, d5,
        d6, d7]; norm_num)
  · simp [compute_Jac_inv, forLoop, mapAssign, zeros, hc]
  · intro h
    rw [h] at e00
    norm_num at e00

end Evaluation
end FEBasis
end MAST

namespace MAST
namespace Physics
namespace Elasticity
namespace ElastoPlasticity

open Finset

variable {K C : Type}

/-- The quadrature loop of `compute` after `n` iterations: the operator is untouched, the
context is the one reached after `n` points, the residual has received
`Σ_{q<n} detJxW(q)·B(q)ᵗ·stress` for the contents `stress` of the local of that name, and a
requested tangent has received `Σ_{q<n} detJxW(q)·B(q)ᵗ·(C(q)·B(q))`. -/
theorem compute_loop [CommRing K] (Dim n_strain : Nat) (init_for_qp : Nat → C → C)
    (self : StrainEnergy (FEVarType K) (YieldSurfaceType C K)) (fe_var_data : FEVarType K)
    (ys : YieldSurfaceType C K) (stress : Nat → K) (c : C) (res : Nat → K)
    (jac : Option (Nat → Nat → K)) (n : Nat) :
    forLoop (fun i (s : CallState (FEVarType K) (YieldSurfaceType C K) C K) =>
        let c := init_for_qp i s.c
        let epsilon := (fe_var_data.strain i).1
        let Bxmat := (fe_var_data.strain i).2
        let out := ys.compute c epsilon
        let mat := out.tangent
        let vec := vector_mult_transpose n_strain
          (Dim * fe_var_data.get_fe_shape_data.n_basis) Bxmat stress
        let res := fun a => s.res a + fe_var_data.get_fe_shape_data.detJxW i * vec a
        let jac := s.jac.map (fun J =>
          let mat1 := left_multiply n_strain
            (Dim * fe_var_data.get_fe_shape_data.n_basis) Bxmat mat
          let mat2 := right_multiply_transpose n_strain
            (Dim * fe_var_data.get_fe_shape_data.n_basis) Bxmat mat1
          fun a b => J a b + fe_var_data.get_fe_shape_data.detJxW i * mat2 a b)
        (⟨s.self, out.context, res, jac⟩ : CallState (FEVarType K) (YieldSurfaceType C K) C K))
      n ⟨self, c, res, jac⟩
    = ⟨self, contextBefore init_for_qp fe_var_data ys c n,
        fun a => res a + ∑ q in range n, fe_var_data.get_fe_shape_data.detJxW q *
          vector_mult_transpose n_strain (Dim * fe_var_data.get_fe_shape_data.n_basis)
            (fe_var_data.strain q).2 stress a,
        jac.map (fun J a b => J a b + ∑ q in range n,
          fe_var_data.get_fe_shape_data.detJxW q *
            right_multiply_transpose n_strain (Dim * fe_var_data.get_fe_shape_data.n_basis)
              (fe_var_data.strain q).2
              (left_multiply n_strain (Dim * fe_var_data.get_fe_shape_data.n_basis)
                (fe_var_data.strain q).2
                (yieldAt init_for_qp fe_var_data ys c q).tangent) a b)⟩ := by
  induction n with
  | zero =>
    cases jac <;> simp [forLoop, contextBefore]
  | succ n ih =>
    rw [forLoop_succ, ih]
    cases jac with
    | none =>
      simp only [Option.map_none', contextBefore, yieldAt, CallState.mk.injEq, true_and,
        and_true]
      funext a
      rw [Finset.sum_range_succ, add_assoc]
    | some J =>
      simp only [Option.map_some', contextBefore, yieldAt, CallState.mk.injEq, true_and,
        Option.some.injEq]
      refine ⟨?_, ?_⟩
      · funext a
        rw [Finset.sum_range_succ, add_assoc]
      · funext a b
        rw [Finset.sum_range_succ, add_assoc]

end ElastoPlasticity
end Elasticity
end Physics
end MAST

namespace MAST
namespace Physics
namespace Elasticity
namespace ElastoPlasticity

open Finset

variable {K C : Type}

/-- What a configured `compute` call returns, for the contents `stress` of the local of that
name. -/
theorem compute_configured [CommRing K] (Dim n_strain : Nat) (init_for_qp : Nat → C → C)
    (self : StrainEnergy (FEVarType K) (YieldSurfaceType C K)) (fe_var_data : FEVarType K)
    (ys : YieldSurfaceType C K) (stress : Nat → K) (c : C) (res : Nat → K)
    (jac : Option (Nat → Nat → K))
    (hf : self._fe_var_data = some fe_var_data) (hy : self._yield = some ys) :
    StrainEnergy.compute Dim n_strain init_for_qp self stress c res jac
      = (Status.ok,
          ⟨self,
            contextBefore init_for_qp fe_var_data ys c fe_var_data.get_fe_shape_data.n_q_points,
            fun a => res a + ∑ q in range fe_var_data.get_fe_shape_data.n_q_points,
              fe_var_data.get_fe_shape_data.detJxW q *
                vector_mult_transpose n_strain (Dim * fe_var_data.get_fe_shape_data.n_basis)
                  (fe_var_data.strain q).2 stress a,
            jac.map (contractTangent Dim n_strain init_for_qp fe_var_data ys c)⟩) := by
  unfold StrainEnergy.compute
  rw [hf, hy]
  simp only
  rw [compute_loop]
  rfl

/-- Claim C4: one-shot binding.  `set_yield_surface` succeeds if and only if no yield surface
is bound yet and `set_fe_var_data` succeeds if and only if no FE data is bound yet; a failing
call leaves the operator (both bindings) as it was, and a succeeding call binds its argument
and keeps the other binding. -/
theorem set_once_spec {F Y : Type} (self : StrainEnergy F Y) (ys : Y) (fe_data : F) :
    ((self.set_yield_surface ys).1 = Status.ok ↔ self._yield = none) ∧
    ((self.set_yield_surface ys).1 ≠ Status.ok → (self.set_yield_surface ys).2 = self) ∧
    ((self.set_yield_surface ys).1 = Status.ok →
      (self.set_yield_surface ys).2._yield = some ys ∧
      (self.set_yield_surface ys).2._fe_var_data = self._fe_var_data) ∧
    ((self.set_fe_var_data fe_data).1 = Status.ok ↔ self._fe_var_data = none) ∧
    ((self.set_fe_var_data fe_data).1 ≠ Status.ok → (self.set_fe_var_data fe_data).2 = self) ∧
    ((self.set_fe_var_data fe_data).1 = Status.ok →
      (self.set_fe_var_data fe_data).2._fe_var_data = some fe_data ∧
      (self.set_fe_var_data fe_data).2._yield = self._yield) := by
  obtain ⟨y, f⟩ := self
  cases y <;> cases f <;>
    simp [StrainEnergy.set_yield_surface, StrainEnergy.set_fe_var_data]

/-- Claim C5: `compute` and `derivative` fail if and only if the yield surface or the FE data
is unbound, and a failing call returns no partial result: the residual and tangent buffers
(and the operator and the context) are as the caller passed them. -/
theorem unconfigured_spec [CommRing K] {ScalarFieldType : Type} (Dim n_strain : Nat)
    (init_for_qp : Nat → C → C) (self : StrainEnergy (FEVarType K) (YieldSurfaceType C K))
    (stress : Nat → K) (mat : Nat → Nat → K) (c : C) (f : ScalarFieldType) (res : Nat → K)
    (jac : Option (Nat → Nat → K)) :
    ((StrainEnergy.compute Dim n_strain init_for_qp self stress c res jac).1 ≠ Status.ok
      ↔ self._yield = none ∨ self._fe_var_data = none) ∧
    ((StrainEnergy.compute Dim n_strain init_for_qp self stress c res jac).1 ≠ Status.ok →
      (StrainEnergy.compute Dim n_strain init_for_qp self stress c res jac).2
        = ⟨self, c, res, jac⟩) ∧
    ((StrainEnergy.derivative Dim n_strain init_for_qp self stress mat c f res jac).1
        ≠ Status.ok
      ↔ self._yield = none ∨ self._fe_var_data = none) ∧
    ((StrainEnergy.derivative Dim n_strain init_for_qp self stress mat c f res jac).1
        ≠ Status.ok →
      (StrainEnergy.derivative Dim n_strain init_for_qp self stress mat c f res jac).2
        = ⟨self, c, res, jac⟩) := by
  obtain ⟨y, fe⟩ := self
  cases y <;> cases fe <;> simp [StrainEnergy.compute, StrainEnergy.derivative]

/-- Claim C6: with FE data bound, `n_dofs()` is `Dim * n_basis()` of the bound FE shape data
(`8` for `Dim = 2` and a four-basis quadrilateral); with no FE data bound it fails. -/
theorem n_dofs_spec {Y : Type} (Dim : Nat) (self : StrainEnergy (FEVarType K) Y) :
    (∀ fe_var_data, self._fe_var_data = some fe_var_data →
      self.n_dofs Dim = Except.ok (Dim * fe_var_data.get_fe_shape_data.n_basis)) ∧
    (self._fe_var_data = none → ∃ msg, self.n_dofs Dim = Except.error msg) ∧
    (⟨none, some quadFE⟩ : StrainEnergy (FEVarType ℚ) Y).n_dofs 2 = Except.ok 8 := by
  refine ⟨fun fe h => ?_, fun h => ?_, rfl⟩
  · simp [StrainEnergy.n_dofs, h]
  · exact ⟨"FE data not initialized.", by simp [StrainEnergy.n_dofs, h]⟩

end ElastoPlasticity
end Elasticity
end Physics
end MAST

namespace MAST
namespace Physics
namespace Elasticity
namespace ElastoPlasticity

open Finset

/-- Claim C2, evaluated on the bar: the yield surface's stress for the strain `1` is `2`, so
the contract gives the residual entry `res(1) = 0 + 1·(1·2) = 2`; `compute` succeeds and
returns `res(1) = 0` when the memory under the local `stress` holds `0`, and it returns that
same residual whatever yield surface is bound. -/
theorem compute_residual_at_bar :
    (StrainEnergy.compute 1 1 barInit barOperator (fun _ => 0) 0 (fun _ => 0) none).1
      = Status.ok ∧
    (StrainEnergy.compute 1 1 barInit barOperator (fun _ => 0) 0 (fun _ => 0) none).2.res 1
      = 0 ∧
    contractResidual 1 1 barInit barFE barYield 0 (fun _ => 0) 1 = 2 ∧
    (StrainEnergy.compute 1 1 barInit barOperator (fun _ => 0) 0 (fun _ => 0) none).2.res
      ≠ contractResidual 1 1 barInit barFE barYield 0 (fun _ => 0) ∧
    ∀ ys : YieldSurfaceType Nat ℚ,
      (StrainEnergy.compute 1 1 barInit ⟨some ys, some barFE⟩ (fun _ => 0) 0 (fun _ => 0)
        none).2.res
      = (StrainEnergy.compute 1 1 barInit barOperator (fun _ => 0) 0 (fun _ => 0) none).2.res := by
  have h0 : (StrainEnergy.compute 1 1 barInit barOperator (fun _ => 0) 0 (fun _ => 0)
      none).2.res 1 = 0 := by
    rw [compute_configured 1 1 barInit barOperator barFE barYield _ _ _ _ rfl rfl]
    simp [vector_mult_transpose, barFE]
  have h2 : contractResidual 1 1 barInit barFE barYield 0 (fun _ => 0) 1 = 2 := by
    simp [contractResidual, vector_mult_transpose, yieldAt, barFE, barYield]
  refine ⟨?_, h0, h2, ?_, ?_⟩
  · rw [compute_configured 1 1 barInit barOperator barFE barYield _ _ _ _ rfl rfl]
  · intro h
    have e := congrFun h 1
    rw [h0, h2] at e
    norm_num at e
  · intro ys
    rw [compute_configured 1 1 barInit barOperator barFE barYield _ _ _ _ rfl rfl,
      compute_configured 1 1 barInit ⟨some ys, some barFE⟩ barFE ys _ _ _ _ rfl rfl]

/-- Claim C7, evaluated on the bar: every `compute` call returns the operator unchanged, but
two calls with the same operator, the same context and zero-initialised residual return the
residual entries `0` and `1` when the memory under the local `stress` holds `0` at the first
call and `1` at the second. -/
theorem compute_twice_at_bar :
    (∀ (stress : Nat → ℚ) (c : Nat) (res : Nat → ℚ) (jac : Option (Nat → Nat → ℚ)),
      (StrainEnergy.compute 1 1 barInit barOperator stress c res jac).2.self = barOperator) ∧
    (StrainEnergy.compute 1 1 barInit barOperator (fun _ => 0) 0 (fun _ => 0) none).2.res 1
      = 0 ∧
    (StrainEnergy.compute 1 1 barInit barOperator (fun _ => 1) 0 (fun _ => 0) none).2.res 1
      = 1 ∧
    (StrainEnergy.compute 1 1 barInit barOperator (fun _ => 0) 0 (fun _ => 0) none).2.res
      ≠ (StrainEnergy.compute 1 1 barInit barOperator (fun _ => 1) 0 (fun _ => 0)
          none).2.res := by
  have h0 : (StrainEnergy.compute 1 1 barInit barOperator (fun _ => 0) 0 (fun _ => 0)
      none).2.res 1 = 0 := by
    rw [compute_configured 1 1 barInit barOperator barFE barYield _ _ _ _ rfl rfl]
    simp [vector_mult_transpose, barFE]
  have h1 : (StrainEnergy.compute 1 1 barInit barOperator (fun _ => 1) 0 (fun _ => 0)
      none).2.res 1 = 1 := by
    rw [compute_configured 1 1 barInit barOperator barFE barYield _ _ _ _ rfl rfl]
    simp [vector_mult_transpose, barFE]
  refine ⟨fun stress c res jac => ?_, h0, h1, ?_⟩
  · rw [compute_configured 1 1 barInit barOperator barFE barYield _ _ _ _ rfl rfl]
  · intro h
    have e := congrFun h 1
    rw [h0, h1] at e
    norm_num at e

/-- Witness of `set_once_spec`: binding a yield surface to a fresh operator succeeds, and
binding one to the bar operator fails and leaves it as it was. -/
theorem set_once_spec_witness :
    ((StrainEnergy.new : StrainEnergy (FEVarType ℚ) (YieldSurfaceType Nat ℚ)).set_yield_surface
      barYield).2._yield = some barYield ∧
    (barOperator.set_yield_surface barYield).2 = barOperator :=
  ⟨((set_once_spec StrainEnergy.new barYield barFE).2.2.1
      ((set_once_spec StrainEnergy.new barYield barFE).1.mpr rfl)).1,
    (set_once_spec barOperator barYield barFE).2.1
      (fun h => by
        have := (set_once_spec barOperator barYield barFE).1.mp h
        simp [barOperator] at this)⟩

/-- Witness of `unconfigured_spec`: `compute` on a fresh operator fails and hands back the
caller's buffers. -/
theorem unconfigured_spec_witness :
    (StrainEnergy.compute 1 1 barInit
      (StrainEnergy.new : StrainEnergy (FEVarType ℚ) (YieldSurfaceType Nat ℚ))
      (fun _ => 0) 0 (fun _ => 7) none).2
      = ⟨StrainEnergy.new, 0, fun _ => 7, none⟩ :=
  (unconfigured_spec 1 1 barInit StrainEnergy.new (fun _ => 0) (fun _ _ => 0) 0 () (fun _ => 7)
    none).2.1
    ((unconfigured_spec 1 1 barInit StrainEnergy.new (fun _ => 0) (fun _ _ => 0) 0 ()
      (fun _ => 7) none).1.mpr (Or.inl rfl))

/-- Witness of `n_dofs_spec`: a quadrilateral with four basis functions in two dimensions
has eight degrees of freedom. -/
theorem n_dofs_spec_witness :
    (⟨some barYield, some quadFE⟩ : StrainEnergy (FEVarType ℚ) (YieldSurfaceType Nat ℚ)).n_dofs 2
      = Except.ok (2 * 4) :=
  (n_dofs_spec 2 ⟨some barYield, some quadFE⟩).1 quadFE rfl

end ElastoPlasticity
end Elasticity
end Physics

namespace FEBasis
namespace Evaluation

open Finset EMatrix

/-- Witness of `compute_xyz_spec` on the triangle, at row `0`, node `1` and point `0`. -/
theorem compute_xyz_spec_witness :
    (0 < 2 ∧ 1 < triContext.n_nodes ∧ 0 < triBasis.n_q_points) ∧
    (compute_xyz 2 triContext triBasis (zeros 0 0) (zeros 0 0)).1.coeff 0 1
      = triContext.nodal_coord 1 0 ∧
    (compute_xyz 2 triContext triBasis (zeros 0 0) (zeros 0 0)).2.coeff 0 0
      = ∑ l in range triContext.n_nodes, triBasis.phi 0 l *
          (compute_xyz 2 triContext triBasis (zeros 0 0) (zeros 0 0)).1.coeff 0 l :=
  ⟨⟨by decide, by decide, by decide⟩,
    (compute_xyz_spec 2 triContext triBasis (zeros 0 0) (zeros 0 0) 0 1 0 (by decide)
      (by decide) (by decide)).2.2.2.2.1,
    (compute_xyz_spec 2 triContext triBasis (zeros 0 0) (zeros 0 0) 0 1 0 (by decide)
      (by decide) (by decide)).2.2.2.2.2.1⟩

/-- Witness of `compute_detJxW_spec`: with the two-point basis a `detJ` of two entries gives
two products, and a `detJ` of three entries fails and leaves the output as it was. -/
theorem compute_detJxW_spec_witness :
    (compute_detJxW triBasis ⟨1, 2, fun _ => 3⟩ (zeros 0 0)).2.cols = triBasis.n_q_points ∧
    (compute_detJxW triBasis ⟨1, 3, fun _ => 3⟩ (zeros 0 0)).2 = zeros 0 0 :=
  ⟨((compute_detJxW_spec triBasis ⟨1, 2, fun _ => 3⟩ (zeros 0 0)).2.1
      ((compute_detJxW_spec triBasis ⟨1, 2, fun _ => 3⟩ (zeros 0 0)).1.mpr rfl)).2.1,
    ((compute_detJxW_spec triBasis ⟨1, 3, fun _ => 3⟩ (zeros 0 0)).2.2 (by decide)).2⟩

end Evaluation
end FEBasis
end MAST

namespace MAST
namespace FEBasis
namespace Evaluation

open Finset EMatrix

variable {K : Type}

/-- A loop that stores `f i` in cell `i` keeps the extents, fills the cells below its bound
and keeps the others. -/
theorem forLoop_writeAt_cell (f : Nat → K) (M : EMatrix K) (n : Nat) :
    (forLoop (fun i D => D.writeAt i (f i)) n M).rows = M.rows ∧
    (forLoop (fun i D => D.writeAt i (f i)) n M).cols = M.cols ∧
    (∀ i, i < n → (forLoop (fun i D => D.writeAt i (f i)) n M).data i = f i) ∧
    (∀ i, n ≤ i → (forLoop (fun i D => D.writeAt i (f i)) n M).data i = M.data i) := by
  induction n with
  | zero => simp [forLoop]
  | succ n ih =>
    obtain ⟨h1, h2, h3, h4⟩ := ih
    refine ⟨h1, h2, ?_, ?_⟩
    · intro i hi
      simp only [forLoop_succ, writeAt_data]
      by_cases e : i = n
      · simp [e]
      · rw [if_neg e]; exact h3 i (by omega)
    · intro i hi
      simp only [forLoop_succ, writeAt_data]
      rw [if_neg (by omega)]
      exact h4 i (by omega)

/-- The square view at `col(q).data()` is the block packed in column `q`. -/
theorem mapBlock_colPtr (M : EMatrix K) (E q : Nat) :
    M.mapBlock (M.colPtr q) E = M.packedSquare E q := by
  funext a b
  simp only [mapBlock, colPtr, packedSquare, packedBlock, coeff, Nat.add_assoc]

/-- The Eigen assertion on the extents of the view decides the status of `compute_detJ`: the
call stops exactly in a build without `NDEBUG`, with at least one quadrature point and
`ElemDim*ElemDim ≠ ElemDim`. -/
theorem compute_detJ_status [CommRing K] (ndebug : Bool)
    (luDeterminant : Nat → Nat → (Nat → Nat → K) → K) (ElemDim : Nat)
    (dx_dxi detJ : EMatrix K) :
    (compute_detJ ndebug luDeterminant ElemDim dx_dxi detJ).1 ≠ Status.ok
      ↔ ndebug = false ∧ 0 < dx_dxi.cols ∧ ElemDim * ElemDim ≠ ElemDim := by
  unfold compute_detJ
  by_cases h : ndebug = false ∧ 0 < dx_dxi.cols ∧ ElemDim * ElemDim ≠ ElemDim
  · simp only [if_pos h]
    simp [h]
  · simp only [if_neg h]
    simp [h]

/-- For `ElemDim = 1` the view of `compute_detJ` has the extents of its type, and in either
build the call succeeds and returns a vector with one entry per column of `dx_dxi` whose
entry `q` is the determinant of the `1 x 1` block in column `q`, the Jacobian value
itself. -/
theorem compute_detJ_elem_dim_one [CommRing K] (ndebug : Bool)
    (luDeterminant : Nat → Nat → (Nat → Nat → K) → K) (dx_dxi detJ : EMatrix K) (q : Nat)
    (hq : q < dx_dxi.cols) :
    (compute_detJ ndebug luDeterminant 1 dx_dxi detJ).1 = Status.ok ∧
    (compute_detJ ndebug luDeterminant 1 dx_dxi detJ).2.rows = dx_dxi.cols ∧
    (compute_detJ ndebug luDeterminant 1 dx_dxi detJ).2.cols = 1 ∧
    (compute_detJ ndebug luDeterminant 1 dx_dxi detJ).2.coeff q 0
      = (dx_dxi.packedSquare 1 q).det ∧
    (dx_dxi.packedSquare 1 q).det = dx_dxi.coeff 0 q := by
  obtain ⟨h1, h2, h3, _⟩ := forLoop_writeAt_cell
    (fun i => (dx_dxi.mapBlock (dx_dxi.colPtr i) 1).det) (zeros dx_dxi.cols 1) dx_dxi.cols
  have e : compute_detJ ndebug luDeterminant 1 dx_dxi detJ
      = (Status.ok, forLoop (fun i D =>
          D.writeAt i (dx_dxi.mapBlock (dx_dxi.colPtr i) 1).det) dx_dxi.cols
          (zeros dx_dxi.cols 1)) := by
    unfold compute_detJ
    rw [if_neg (by simp)]
    rfl
  rw [e]
  refine ⟨rfl, h1, h2, ?_, ?_⟩
  · have := h3 q hq
    rw [mapBlock_colPtr] at this
    show (forLoop (fun i D => D.writeAt i (dx_dxi.mapBlock (dx_dxi.colPtr i) 1).det)
      dx_dxi.cols (zeros dx_dxi.cols 1)).data
        (0 * (forLoop (fun i D => D.writeAt i (dx_dxi.mapBlock (dx_dxi.colPtr i) 1).det)
          dx_dxi.cols (zeros dx_dxi.cols 1)).rows + q) = _
    rw [Nat.zero_mul, Nat.zero_add]
    exact this
  · rw [Matrix.det_unique]
    simp [packedSquare, packedBlock]

/-- Every side index from `4` on is the `default` case of `quad_side_Jac_row`. -/
theorem quad_side_Jac_row_invalid (s : Nat) (hs : 4 ≤ s) :
    quad_side_Jac_row s = Except.error "Invalid side number for quad" := by
  obtain ⟨n, rfl⟩ : ∃ n, s = n + 4 := ⟨s - 4, by omega⟩
  rfl

/-- Claim C16: `quad_side_Jac_row` returns `0` for the side indices `0` and `2`, `1` for `1`
and `3`, and fails for every other side index; so the side measure and the side tangent and
normal of a quadrilateral fail for every side index `s ≥ 4`. -/
theorem quad_side_spec [Field K] (sqrt : K → K) (c : ContextType K) (s : Nat)
    (dx_dxi detJ tangent normal : EMatrix K) (hs : 4 ≤ s) :
    quad_side_Jac_row 0 = Except.ok 0 ∧ quad_side_Jac_row 2 = Except.ok 0 ∧
    quad_side_Jac_row 1 = Except.ok 1 ∧ quad_side_Jac_row 3 = Except.ok 1 ∧
    (∃ msg, quad_side_Jac_row s = Except.error msg) ∧
    (compute_detJ_side_quad sqrt c s dx_dxi detJ).1 ≠ Status.ok ∧
    (compute_detJ_side_2d sqrt c s dx_dxi detJ).1 ≠ Status.ok ∧
    (compute_quad_side_tangent_and_normal sqrt c s dx_dxi tangent normal).1 ≠ Status.ok ∧
    (compute_side_tangent_and_normal_2d sqrt c s dx_dxi tangent normal).1 ≠ Status.ok := by
  have hrow := quad_side_Jac_row_invalid s hs
  refine ⟨rfl, rfl, rfl, rfl, ⟨_, hrow⟩, ?_, ?_, ?_, ?_⟩
  · unfold compute_detJ_side_quad
    rw [hrow]
    by_cases hq : c.elem_is_quad <;> simp [hq]
  · unfold compute_detJ_side_2d compute_detJ_side_quad
    rw [hrow]
    by_cases hq : c.elem_is_quad <;> simp [hq]
  · unfold compute_quad_side_tangent_and_normal
    rw [hrow]
    by_cases hq : c.elem_is_quad <;> simp [hq]
  · unfold compute_side_tangent_and_normal_2d compute_quad_side_tangent_and_normal
    rw [hrow]
    by_cases hq : c.elem_is_quad <;> simp [hq]

/-- Claim C17: for a 1-D element and a Jacobian with exactly one quadrature point,
`compute_side_tangent_and_normal` returns a `1 x 1` normal equal to `-1` for side `0` and
`+1` for side `1` and a `1 x 1` tangent equal to `0`, whatever the Jacobian holds; it fails
when the Jacobian does not have exactly one quadrature point. -/
theorem side_1d_tangent_normal_spec [Ring K] (c : ContextType K) (dx_dxi tangent normal :
    EMatrix K) :
    (dx_dxi.cols = 1 →
      (∀ s, (compute_side_tangent_and_normal_1d c s dx_dxi tangent normal).1 = Status.ok ∧
        (compute_side_tangent_and_normal_1d c s dx_dxi tangent normal).2.1.rows = 1 ∧
        (compute_side_tangent_and_normal_1d c s dx_dxi tangent normal).2.1.cols = 1 ∧
        (compute_side_tangent_and_normal_1d c s dx_dxi tangent normal).2.1.coeff 0 0 = 0 ∧
        (compute_side_tangent_and_normal_1d c s dx_dxi tangent normal).2.2.rows = 1 ∧
        (compute_side_tangent_and_normal_1d c s dx_dxi tangent normal).2.2.cols = 1) ∧
      (compute_side_tangent_and_normal_1d c 0 dx_dxi tangent normal).2.2.coeff 0 0 = -1 ∧
      (compute_side_tangent_and_normal_1d c 1 dx_dxi tangent normal).2.2.coeff 0 0 = 1) ∧
    (dx_dxi.cols ≠ 1 →
      ∀ s, (compute_side_tangent_and_normal_1d c s dx_dxi tangent normal).1 ≠ Status.ok) := by
  refine ⟨fun h => ?_, fun h s => ?_⟩
  · simp [compute_side_tangent_and_normal_1d, h, zeros, setCoeff, writeAt, coeff]
  · simp [compute_side_tangent_and_normal_1d, h]

/-- Claim C18, as the code has it: the 1-D side functions do not look at the validity of the
side index.  `compute_detJ_side` and `compute_side_tangent_and_normal` succeed for every
side index `s` if and only if the Jacobian has exactly one quadrature point; then
`compute_detJ_side` returns the single value `1` and the normal is `-1` for `s = 0` and `+1`
for every other `s`. -/
theorem side_1d_any_index_spec [Ring K] (c : ContextType K) (s : Nat)
    (dx_dxi detJ tangent normal : EMatrix K) :
    ((compute_detJ_side_1d c s dx_dxi detJ).1 = Status.ok ↔ dx_dxi.cols = 1) ∧
    ((compute_side_tangent_and_normal_1d c s dx_dxi tangent normal).1 = Status.ok
      ↔ dx_dxi.cols = 1) ∧
    (dx_dxi.cols = 1 →
      (compute_detJ_side_1d c s dx_dxi detJ).2.rows = 1 ∧
      (compute_detJ_side_1d c s dx_dxi detJ).2.cols = 1 ∧
      (compute_detJ_side_1d c s dx_dxi detJ).2.coeff 0 0 = 1 ∧
      (compute_side_tangent_and_normal_1d c s dx_dxi tangent normal).2.2.coeff 0 0
        = if s = 0 then -1 else 1) := by
  by_cases h : dx_dxi.cols = 1
  · simp [compute_detJ_side_1d, compute_side_tangent_and_normal_1d, h, zeros, ones, setCoeff,
      writeAt, coeff]
  · simp [compute_detJ_side_1d, compute_side_tangent_and_normal_1d, h]

/-- Claim C18, as stated, fails at side index `2`: with one quadrature point
`compute_detJ_side` succeeds and returns `1`, and `compute_side_tangent_and_normal` succeeds
and returns the normal `+1`. -/
theorem side_1d_accepts_index_two :
    (2 : Nat) ≥ 2 ∧ lineJac.cols = 1 ∧
    (compute_detJ_side_1d unitSquareContext 2 lineJac (zeros 0 0)).1 = Status.ok ∧
    (compute_detJ_side_1d unitSquareContext 2 lineJac (zeros 0 0)).2.coeff 0 0 = 1 ∧
    (compute_side_tangent_and_normal_1d unitSquareContext 2 lineJac (zeros 0 0)
      (zeros 0 0)).1 = Status.ok ∧
    (compute_side_tangent_and_normal_1d unitSquareContext 2 lineJac (zeros 0 0)
      (zeros 0 0)).2.2.coeff 0 0 = 1 := by
  simp [compute_detJ_side_1d, compute_side_tangent_and_normal_1d, lineJac, zeros, ones,
    setCoeff, writeAt, coeff]

end Evaluation
end FEBasis

namespace Base
namespace ParameterData

variable {K : Type}

/-- What `_add_to_map` does to a map. -/
theorem add_to_map_cases {T : Type} (dflt : T) (nm : String) (m : String → Option T) :
    (m nm = none ∧ _add_to_map dflt nm m
        = (Status.ok, fun k => if k = nm then some dflt else m k)) ∨
    (m nm ≠ none ∧ (_add_to_map dflt nm m).1 ≠ Status.ok ∧ (_add_to_map dflt nm m).2 = m) := by
  unfold _add_to_map
  cases h : m nm with
  | none => exact Or.inl ⟨rfl, rfl⟩
  | some v => exact Or.inr ⟨by simp, by simp, rfl⟩

/-- Claim C20: `add<T>(name)`, for `T` integer or real, fails if and only if a type-`T`
parameter called `name` is already in the store, and a failing `add` leaves the store
unchanged; after a succeeding `add`, `get<T>(name)` returns `0` and `get` of every other
name and of every name of the other type returns what it returned before. -/
theorem add_spec [Zero K] (self : ParameterData K) (nm : String) :
    (((self.add_int nm).1 ≠ Status.ok ↔ self._int_data nm ≠ none) ∧
      ((self.add_int nm).1 ≠ Status.ok → (self.add_int nm).2 = self) ∧
      ((self.add_int nm).1 = Status.ok →
        (self.add_int nm).2.get_int nm = Except.ok 0 ∧
        (∀ k, k ≠ nm → (self.add_int nm).2.get_int k = self.get_int k) ∧
        (∀ k, (self.add_int nm).2.get_real k = self.get_real k))) ∧
    (((self.add_real nm).1 ≠ Status.ok ↔ self._real_data nm ≠ none) ∧
      ((self.add_real nm).1 ≠ Status.ok → (self.add_real nm).2 = self) ∧
      ((self.add_real nm).1 = Status.ok →
        (self.add_real nm).2.get_real nm = Except.ok 0 ∧
        (∀ k, k ≠ nm → (self.add_real nm).2.get_real k = self.get_real k) ∧
        (∀ k, (self.add_real nm).2.get_int k = self.get_int k))) := by
  obtain ⟨mi, mr⟩ := self
  refine ⟨?_, ?_⟩
  · rcases add_to_map_cases (0 : Int) nm mi with ⟨h, e⟩ | ⟨h, e1, e2⟩
    · have e' : add_int (⟨mi, mr⟩ : ParameterData K) nm
          = (Status.ok, ⟨fun k => if k = nm then some 0 else mi k, mr⟩) := by
        simp [add_int, e]
      rw [e']
      exact ⟨by simp [h], by simp,
        fun _ => ⟨by simp [get_int, get_real, _get_from_map],
          fun k hk => by simp [get_int, get_real, _get_from_map, hk], fun k => rfl⟩⟩
    · have e' : add_int (⟨mi, mr⟩ : ParameterData K) nm
          = ((_add_to_map (0 : Int) nm mi).1, ⟨mi, mr⟩) := by
        simp [add_int, e2]
      rw [e']
      exact ⟨⟨fun _ => h, fun _ => e1⟩, fun _ => rfl, fun hok => absurd hok e1⟩
  · rcases add_to_map_cases (0 : K) nm mr with ⟨h, e⟩ | ⟨h, e1, e2⟩
    · have e' : add_real (⟨mi, mr⟩ : ParameterData K) nm
          = (Status.ok, ⟨mi, fun k => if k = nm then some 0 else mr k⟩) := by
        simp [add_real, e]
      rw [e']
      exact ⟨by simp [h], by simp,
        fun _ => ⟨by simp [get_int, get_real, _get_from_map],
          fun k hk => by simp [get_int, get_real, _get_from_map, hk], fun k => rfl⟩⟩
    · have e' : add_real (⟨mi, mr⟩ : ParameterData K) nm
          = ((_add_to_map (0 : K) nm mr).1, ⟨mi, mr⟩) := by
        simp [add_real, e2]
      rw [e']
      exact ⟨⟨fun _ => h, fun _ => e1⟩, fun _ => rfl, fun hok => absurd hok e1⟩

end ParameterData
end Base
end MAST

namespace MAST
namespace FEBasis
namespace Evaluation

open Finset EMatrix

/-- The exact square roots of the rational squares that occur on the example elements. -/
theorem ratSqrt_values : Rat.sqrt 25 = 5 ∧ Rat.sqrt 9 = 3 ∧ Rat.sqrt 1 = 1 := by
  refine ⟨?_, ?_, ?_⟩
  · calc Rat.sqrt 25 = Rat.sqrt (5 * 5) := congrArg Rat.sqrt (by norm_num)
      _ = |5| := Rat.sqrt_eq 5
      _ = 5 := abs_of_pos (by norm_num)
  · calc Rat.sqrt 9 = Rat.sqrt (3 * 3) := congrArg Rat.sqrt (by norm_num)
      _ = |3| := Rat.sqrt_eq 3
      _ = 3 := abs_of_pos (by norm_num)
  · calc Rat.sqrt 1 = Rat.sqrt (1 * 1) := congrArg Rat.sqrt (by norm_num)
      _ = |1| := Rat.sqrt_eq 1
      _ = 1 := abs_of_pos (by norm_num)

/-- The packed Jacobian of the parallelogram: `[[3, 4], [0, 1]]` packed in both columns. -/
theorem skewQuadJac_cells : skewQuadJac.rows = 4 ∧ skewQuadJac.cols = 2 ∧
    skewQuadJac.data 0 = 3 ∧ skewQuadJac.data 1 = 0 ∧ skewQuadJac.data 2 = 4 ∧
    skewQuadJac.data 3 = 1 ∧ skewQuadJac.data 4 = 3 ∧ skewQuadJac.data 5 = 0 ∧
    skewQuadJac.data 6 = 4 ∧ skewQuadJac.data 7 = 1 := by
  simp [skewQuadJac]

/-- The side measure that `compute_detJ_side` returns for side `0` of the parallelogram. -/
theorem skewQuad_side_measure :
    (compute_detJ_side_2d Rat.sqrt skewQuadContext 0 skewQuadJac (zeros 0 0)).1 = Status.ok ∧
    (compute_detJ_side_2d Rat.sqrt skewQuadContext 0 skewQuadJac (zeros 0 0)).2.data 0 = 5 ∧
    (compute_detJ_side_2d Rat.sqrt skewQuadContext 0 skewQuadJac (zeros 0 0)).2.data 1 = 1 := by
  obtain ⟨hr, hc, d0, d1, d2, d3, d4, d5, d6, d7⟩ := skewQuadJac_cells
  obtain ⟨s25, s9, s1⟩ := ratSqrt_values
  simp [compute_detJ_side_2d, compute_detJ_side_quad, skewQuadContext, quad_side_Jac_row,
    forLoop, rowPtr, mapCoeff, norm2, writeAt, zeros, Function.update_apply, hc, d0, d1, d2,
    d3, d4]
  norm_num [s25, s1]

end Evaluation
end FEBasis
end MAST

namespace MAST
namespace FEBasis
namespace Evaluation

open Finset EMatrix

/-- The tangent and normal that `compute_side_tangent_and_normal` returns for side `0` of the
parallelogram: both are `2 x 2` with the cells `(3/5, 0, -4/5, -1)` and `(4/5, 1, -3/5, 0)`. -/
theorem skewQuad_side_tangent_normal :
    (compute_side_tangent_and_normal_2d Rat.sqrt skewQuadContext 0 skewQuadJac (zeros 0 0)
      (zeros 0 0)).1 = Status.ok ∧
    ((compute_side_tangent_and_normal_2d Rat.sqrt skewQuadContext 0 skewQuadJac (zeros 0 0)
        (zeros 0 0)).2.1.rows = 2 ∧
      (compute_side_tangent_and_normal_2d Rat.sqrt skewQuadContext 0 skewQuadJac (zeros 0 0)
        (zeros 0 0)).2.1.cols = 2 ∧
      (compute_side_tangent_and_normal_2d Rat.sqrt skewQuadContext 0 skewQuadJac (zeros 0 0)
        (zeros 0 0)).2.1.data 0 = 3 / 5 ∧
      (compute_side_tangent_and_normal_2d Rat.sqrt skewQuadContext 0 skewQuadJac (zeros 0 0)
        (zeros 0 0)).2.1.data 1 = 0 ∧
      (compute_side_tangent_and_normal_2d Rat.sqrt skewQuadContext 0 skewQuadJac (zeros 0 0)
        (zeros 0 0)).2.1.data 2 = -4 / 5 ∧
      (compute_side_tangent_and_normal_2d Rat.sqrt skewQuadContext 0 skewQuadJac (zeros 0 0)
        (zeros 0 0)).2.1.data 3 = -1) ∧
    ((compute_side_tangent_and_normal_2d Rat.sqrt skewQuadContext 0 skewQuadJac (zeros 0 0)
        (zeros 0 0)).2.2.rows = 2 ∧
      (compute_side_tangent_and_normal_2d Rat.sqrt skewQuadContext 0 skewQuadJac (zeros 0 0)
        (zeros 0 0)).2.2.cols = 2 ∧
      (compute_side_tangent_and_normal_2d Rat.sqrt skewQuadContext 0 skewQuadJac (zeros 0 0)
        (zeros 0 0)).2.2.data 0 = 4 / 5 ∧
      (compute_side_tangent_and_normal_2d Rat.sqrt skewQuadContext 0 skewQuadJac (zeros 0 0)
        (zeros 0 0)).2.2.data 1 = 1 ∧
      (compute_side_tangent_and_normal_2d Rat.sqrt skewQuadContext 0 skewQuadJac (zeros 0 0)
        (zeros 0 0)).2.2.data 2 = -3 / 5 ∧
      (compute_side_tangent_and_normal_2d Rat.sqrt skewQuadContext 0 skewQuadJac (zeros 0 0)
        (zeros 0 0)).2.2.data 3 = 0) := by
  obtain ⟨hr, hc, d0, d1, d2, d3, d4, d5, d6, d7⟩ := skewQuadJac_cells
  obtain ⟨s25, s9, s1⟩ := ratSqrt_values
  simp [compute_side_tangent_and_normal_2d, compute_quad_side_tangent_and_normal,
    skewQuadContext, quad_side_Jac_row, forLoop, rowPtr, mapCoeff, norm2, setCoeff, writeAt,
    zeros, Function.update_apply, hc, d0, d1, d2, d3, d4]
  norm_num [s25, s1]

end Evaluation
end FEBasis
end MAST

namespace MAST
namespace FEBasis
namespace Evaluation

open Finset EMatrix

/-- Claim C12, evaluated on the parallelogram `x = 3ξ + 4η`, `y = η` with two quadrature
points, side `0`: the contract gives the measure `sqrt(3² + 0²) = 3` at both points, and
`compute_detJ_side` succeeds and returns `5` at point `0` and `1` at point `1`. -/
theorem detJ_side_at_parallelogram :
    (compute_detJ_side_2d Rat.sqrt skewQuadContext 0 skewQuadJac (zeros 0 0)).1 = Status.ok ∧
    (compute_detJ_side_2d Rat.sqrt skewQuadContext 0 skewQuadJac (zeros 0 0)).2.coeff 0 0
      = 5 ∧
    (compute_detJ_side_2d Rat.sqrt skewQuadContext 0 skewQuadJac (zeros 0 0)).2.coeff 1 0
      = 1 ∧
    contractSideMeasure Rat.sqrt skewQuadContext quadBasis
      (compute_xyz 2 skewQuadContext quadBasis (zeros 0 0) (zeros 0 0)).1 0 0 = 3 ∧
    contractSideMeasure Rat.sqrt skewQuadContext quadBasis
      (compute_xyz 2 skewQuadContext quadBasis (zeros 0 0) (zeros 0 0)).1 0 1 = 3 := by
  obtain ⟨h0, h1, h2⟩ := skewQuad_side_measure
  obtain ⟨s25, s9, s1⟩ := ratSqrt_values
  have hrows : (compute_detJ_side_2d Rat.sqrt skewQuadContext 0 skewQuadJac
      (zeros 0 0)).2.rows = 2 := by
    simp [compute_detJ_side_2d, compute_detJ_side_quad, skewQuadContext, quad_side_Jac_row,
      forLoop, writeAt, zeros, skewQuadJac_cells.2.1]
  refine ⟨h0, ?_, ?_, ?_, ?_⟩
  · simpa [coeff] using h1
  · simpa [coeff] using h2
  · simp [contractSideMeasure, norm2, Finset.sum_range_succ, compute_xyz, forLoop, setCoeff,
      writeAt, coeff, zeros, quadBasis, skewQuadContext, Function.update_apply]
    norm_num [s9]
  · simp [contractSideMeasure, norm2, Finset.sum_range_succ, compute_xyz, forLoop, setCoeff,
      writeAt, coeff, zeros, quadBasis, skewQuadContext, Function.update_apply]
    norm_num [s9]

/-- Claim C13, evaluated on the parallelogram, side `0`, quadrature point `0`: the selected
Jacobian row is `r = (3, 4)`, not zero, so the contract gives the tangent `(3/5, 4/5)`; the
tangent that `compute_side_tangent_and_normal` returns at point `0` is `(3/5, 0)`, of squared
norm `9/25`, and the two coefficients that the call stores for point `0` are
`(3/5, -4/5)`. -/
theorem side_tangent_at_parallelogram :
    (skewQuadJac.packedBlock 2 0 0 0 = 3 ∧ skewQuadJac.packedBlock 2 0 0 1 = 4) ∧
    contractSideTangent Rat.sqrt skewQuadJac 0 0 = (3 / 5, 4 / 5) ∧
    (skewQuadTangent.rows = 2 ∧ skewQuadTangent.cols = 2) ∧
    vectorAt skewQuadTangent 0 = (3 / 5, 0) ∧
    (skewQuadTangent.coeff 0 0, skewQuadTangent.coeff 0 1) = (3 / 5, -4 / 5) ∧
    vectorAt skewQuadTangent 0 ≠ contractSideTangent Rat.sqrt skewQuadJac 0 0 ∧
    (vectorAt skewQuadTangent 0).1 ^ 2 + (vectorAt skewQuadTangent 0).2 ^ 2 = 9 / 25 := by
  obtain ⟨hr, hc, d0, d1, d2, d3, d4, d5, d6, d7⟩ := skewQuadJac_cells
  obtain ⟨s25, s9, s1⟩ := ratSqrt_values
  obtain ⟨_, ⟨tr, tc, t0, t1, t2, t3⟩, _⟩ := skewQuad_side_tangent_normal
  have hb : skewQuadJac.packedBlock 2 0 0 0 = 3 ∧ skewQuadJac.packedBlock 2 0 0 1 = 4 := by
    simp [packedBlock, coeff, hr, d0, d2]
  have hct : contractSideTangent Rat.sqrt skewQuadJac 0 0 = (3 / 5, 4 / 5) := by
    simp only [contractSideTangent, norm2]
    norm_num [hb.1, hb.2, s25]
  have hv : vectorAt skewQuadTangent 0 = (3 / 5, 0) := by
    simp [vectorAt, skewQuadTangent, coeff, tr, t0, t1]
  refine ⟨hb, hct, ⟨tr, tc⟩, hv, ?_, ?_, ?_⟩
  · simp [skewQuadTangent, coeff, tr, t0, t2]
  · rw [hv, hct]
    intro h
    have := congrArg Prod.snd h
    norm_num at this
  · rw [hv]
    norm_num

/-- Claim C14, evaluated on the parallelogram, side `0`, quadrature point `0` (selected row
`(3, 4)`, not zero): the returned tangent is `(3/5, 0)`, whose rotation is `(0, -3/5)`; the
returned normal is `(4/5, 1)`, of squared norm `41/25`, and its product with the returned
tangent is `12/25`.  The coefficients that the call stores for point `0` are the tangent
`(3/5, -4/5)` and the normal `(4/5, -3/5)`, whose product is `24/25`. -/
theorem side_normal_at_parallelogram :
    vectorAt skewQuadTangent 0 = (3 / 5, 0) ∧
    rotate90 (vectorAt skewQuadTangent 0) = (0, -3 / 5) ∧
    vectorAt skewQuadNormal 0 = (4 / 5, 1) ∧
    vectorAt skewQuadNormal 0 ≠ rotate90 (vectorAt skewQuadTangent 0) ∧
    (vectorAt skewQuadNormal 0).1 ^ 2 + (vectorAt skewQuadNormal 0).2 ^ 2 = 41 / 25 ∧
    (vectorAt skewQuadTangent 0).1 * (vectorAt skewQuadNormal 0).1
      + (vectorAt skewQuadTangent 0).2 * (vectorAt skewQuadNormal 0).2 = 12 / 25 ∧
    (skewQuadTangent.coeff 0 0, skewQuadTangent.coeff 0 1) = (3 / 5, -4 / 5) ∧
    (skewQuadNormal.coeff 0 0, skewQuadNormal.coeff 0 1) = (4 / 5, -3 / 5) ∧
    skewQuadTangent.coeff 0 0 * skewQuadNormal.coeff 0 0
      + skewQuadTangent.coeff 0 1 * skewQuadNormal.coeff 0 1 = 24 / 25 := by
  obtain ⟨_, ⟨tr, tc, t0, t1, t2, t3⟩, ⟨nr, nc, n0, n1, n2, n3⟩⟩ :=
    skewQuad_side_tangent_normal
  have hv : vectorAt skewQuadTangent 0 = (3 / 5, 0) := by
    simp [vectorAt, skewQuadTangent, coeff, tr, t0, t1]
  have hn : vectorAt skewQuadNormal 0 = (4 / 5, 1) := by
    simp [vectorAt, skewQuadNormal, coeff, nr, n0, n1]
  have ht00 : skewQuadTangent.coeff 0 0 = 3 / 5 := by simp [skewQuadTangent, coeff, t0]
  have ht01 : skewQuadTangent.coeff 0 1 = -4 / 5 := by simp [skewQuadTangent, coeff, tr, t2]
  have hn00 : skewQuadNormal.coeff 0 0 = 4 / 5 := by simp [skewQuadNormal, coeff, n0]
  have hn01 : skewQuadNormal.coeff 0 1 = -3 / 5 := by simp [skewQuadNormal, coeff, nr, n2]
  refine ⟨hv, ?_, hn, ?_, ?_, ?_, ?_, ?_, ?_⟩
  · rw [hv]; simp [rotate90]; norm_num
  · rw [hv, hn]
    intro h
    have := congrArg Prod.fst h
    simp [rotate90] at this
  · rw [hn]; norm_num
  · rw [hv, hn]; norm_num
  · rw [ht00, ht01]
  · rw [hn00, hn01]
  · rw [ht00, ht01, hn00, hn01]; norm_num

/-- The cells of the tangent and the normal that `compute_side_tangent_and_normal` returns
for side `0` of the unit square. -/
theorem unitSquare_side_tangent_normal :
    (compute_side_tangent_and_normal_2d Rat.sqrt unitSquareContext 0 unitSquareJac (zeros 0 0)
      (zeros 0 0)).1 = Status.ok ∧
    ((unitSquareTangent 0).rows = 2 ∧ (unitSquareTangent 0).cols = 2 ∧
      (unitSquareTangent 0).data 0 = 1 ∧ (unitSquareTangent 0).data 1 = 0 ∧
      (unitSquareTangent 0).data 2 = 0 ∧ (unitSquareTangent 0).data 3 = -1) ∧
    ((unitSquareNormal 0).rows = 2 ∧ (unitSquareNormal 0).cols = 2 ∧
      (unitSquareNormal 0).data 0 = 0 ∧ (unitSquareNormal 0).data 1 = 1 ∧
      (unitSquareNormal 0).data 2 = -1 ∧ (unitSquareNormal 0).data 3 = 0) := by
  obtain ⟨s25, s9, s1⟩ := ratSqrt_values
  simp [unitSquareTangent, unitSquareNormal, compute_side_tangent_and_normal_2d,
    compute_quad_side_tangent_and_normal, unitSquareContext, unitSquareJac, quad_side_Jac_row,
    forLoop, rowPtr, mapCoeff, norm2, setCoeff, writeAt, zeros, Function.update_apply, s1]

/-- Claim C15, evaluated on the unit square with two quadrature points (identity block in
both columns of `dx_dxi`), side `0` (bottom): the contract gives the tangent `(1, 0)` and the
normal `(0, -1)` at both points; `compute_side_tangent_and_normal` succeeds and returns the
tangents `(1, 0)` and `(0, -1)` and the normals `(0, 1)` and `(-1, 0)`; the coefficients
that the call stores for point `1` are the tangent `(0, -1)` and the normal `(1, 0)`. -/
theorem side_vectors_at_unit_square :
    (∀ q : Fin 2, unitSquareJac.packedSquare 2 q = 1) ∧
    (compute_side_tangent_and_normal_2d Rat.sqrt unitSquareContext 0 unitSquareJac (zeros 0 0)
      (zeros 0 0)).1 = Status.ok ∧
    vectorAt (unitSquareTangent 0) 0 = (1, 0) ∧
    vectorAt (unitSquareTangent 0) 1 = (0, -1) ∧
    vectorAt (unitSquareNormal 0) 0 = (0, 1) ∧
    vectorAt (unitSquareNormal 0) 1 = (-1, 0) ∧
    ((unitSquareTangent 0).coeff 1 0, (unitSquareTangent 0).coeff 1 1) = (0, -1) ∧
    ((unitSquareNormal 0).coeff 1 0, (unitSquareNormal 0).coeff 1 1) = (1, 0) ∧
    vectorAt (unitSquareTangent 0) 1 ≠ (1, 0) ∧
    vectorAt (unitSquareNormal 0) 0 ≠ (0, -1) := by
  obtain ⟨hok, ⟨tr, tc, t0, t1, t2, t3⟩, ⟨nr, nc, n0, n1, n2, n3⟩⟩ :=
    unitSquare_side_tangent_normal
  have ht0 : vectorAt (unitSquareTangent 0) 0 = (1, 0) := by
    simp [vectorAt, coeff, tr, t0, t1]
  have ht1 : vectorAt (unitSquareTangent 0) 1 = (0, -1) := by
    simp [vectorAt, coeff, tr, t2, t3]
  have hn0 : vectorAt (unitSquareNormal 0) 0 = (0, 1) := by
    simp [vectorAt, coeff, nr, n0, n1]
  have hn1 : vectorAt (unitSquareNormal 0) 1 = (-1, 0) := by
    simp [vectorAt, coeff, nr, n2, n3]
  refine ⟨?_, hok, ht0, ht1, hn0, hn1, ?_, ?_, ?_, ?_⟩
  · intro q
    funext a b
    fin_cases q <;> fin_cases a <;> fin_cases b <;>
      simp [packedSquare, packedBlock, coeff, unitSquareJac]
  · simp [coeff, tr, t1, t3]
  · simp [coeff, nr, n1, n3]
  · rw [ht1]
    intro h
    have := congrArg Prod.fst h
    norm_num at this
  · rw [hn0]
    intro h
    have := congrArg Prod.snd h
    norm_num at this

/-- The two assertions of `compute_dphi_dx` decide its status, and a failing call leaves the
output as it was. -/
theorem compute_dphi_dx_guard {K : Type} [CommRing K] (ElemDim SpatialDim : Nat)
    (fe_basis : FEBasisType K) (dxi_dx dphi_dx : EMatrix K) :
    ((compute_dphi_dx ElemDim SpatialDim fe_basis dxi_dx dphi_dx).1 = Status.ok
      ↔ dxi_dx.cols = fe_basis.n_q_points ∧ dxi_dx.rows = fe_basis.n_basis * SpatialDim) ∧
    ((compute_dphi_dx ElemDim SpatialDim fe_basis dxi_dx dphi_dx).1 ≠ Status.ok →
      (compute_dphi_dx ElemDim SpatialDim fe_basis dxi_dx dphi_dx).2 = dphi_dx) := by
  unfold compute_dphi_dx
  by_cases h1 : dxi_dx.cols = fe_basis.n_q_points
  · by_cases h2 : dxi_dx.rows = fe_basis.n_basis * SpatialDim
    · simp [h1, h2]
    · simp [h1, h2]
  · simp [h1]

/-- The chain-rule loop of `compute_dphi_dx`: what it adds to every storage cell. -/
theorem dphi_dx_loop {K : Type} [CommRing K] (E S : Nat) (fe : FEBasisType K)
    (dxi_dx : EMatrix K) (M : EMatrix K) (hM : M.rows = S * fe.n_basis) (n : Nat) :
    let D := forLoop (fun i M =>
      let dxidx := dxi_dx.colPtr i
      let dphidx := M.colPtr i
      forLoop (fun l M =>
        forLoop (fun j M =>
          forLoop (fun k M =>
            M.mapAdd dphidx fe.n_basis l j
              (fe.dphi_dxi i l k * dxi_dx.mapCoeff dxidx E k j)) E M) S M) fe.n_basis M) n M
    D.rows = S * fe.n_basis ∧ D.cols = M.cols ∧
      ∀ x, D.data x = M.data x + ∑ i in range n, ∑ l in range fe.n_basis, ∑ j in range S,
        ∑ k in range E,
          if x = i * (S * fe.n_basis) + j * fe.n_basis + l
          then fe.dphi_dxi i l k * dxi_dx.mapCoeff (dxi_dx.colPtr i) E k j else 0 := by
  intro D
  have l4 : ∀ p i l j, ∀ N : EMatrix K, N.rows = S * fe.n_basis →
      (forLoop (fun k M => M.mapAdd p fe.n_basis l j
        (fe.dphi_dxi i l k * dxi_dx.mapCoeff (dxi_dx.colPtr i) E k j)) E N).rows
        = S * fe.n_basis ∧
      (forLoop (fun k M => M.mapAdd p fe.n_basis l j
        (fe.dphi_dxi i l k * dxi_dx.mapCoeff (dxi_dx.colPtr i) E k j)) E N).cols = N.cols ∧
      ∀ x, (forLoop (fun k M => M.mapAdd p fe.n_basis l j
        (fe.dphi_dxi i l k * dxi_dx.mapCoeff (dxi_dx.colPtr i) E k j)) E N).data x
        = N.data x + ∑ k in range E,
            if x = p + j * fe.n_basis + l
            then fe.dphi_dxi i l k * dxi_dx.mapCoeff (dxi_dx.colPtr i) E k j else 0 := by
    intro p i l j
    refine forLoop_adds (S * fe.n_basis) _ _ ?_ E
    intro k N hN
    exact ⟨hN, rfl, fun x => by simp only [mapAdd, addAt_data]⟩
  have l3 : ∀ p i l, ∀ N : EMatrix K, N.rows = S * fe.n_basis →
      (forLoop (fun j M => forLoop (fun k M => M.mapAdd p fe.n_basis l j
        (fe.dphi_dxi i l k * dxi_dx.mapCoeff (dxi_dx.colPtr i) E k j)) E M) S N).rows
        = S * fe.n_basis ∧
      (forLoop (fun j M => forLoop (fun k M => M.mapAdd p fe.n_basis l j
        (fe.dphi_dxi i l k * dxi_dx.mapCoeff (dxi_dx.colPtr i) E k j)) E M) S N).cols
        = N.cols ∧
      ∀ x, (forLoop (fun j M => forLoop (fun k M => M.mapAdd p fe.n_basis l j
        (fe.dphi_dxi i l k * dxi_dx.mapCoeff (dxi_dx.colPtr i) E k j)) E M) S N).data x
        = N.data x + ∑ j in range S, ∑ k in range E,
            if x = p + j * fe.n_basis + l
            then fe.dphi_dxi i l k * dxi_dx.mapCoeff (dxi_dx.colPtr i) E k j else 0 := by
    intro p i l
    exact forLoop_adds (S * fe.n_basis) _ _ (fun j N hN => l4 p i l j N hN) S
  have l2 : ∀ p i, ∀ N : EMatrix K, N.rows = S * fe.n_basis →
      (forLoop (fun l M => forLoop (fun j M => forLoop (fun k M => M.mapAdd p fe.n_basis l j
        (fe.dphi_dxi i l k * dxi_dx.mapCoeff (dxi_dx.colPtr i) E k j)) E M) S M)
        fe.n_basis N).rows = S * fe.n_basis ∧
      (forLoop (fun l M => forLoop (fun j M => forLoop (fun k M => M.mapAdd p fe.n_basis l j
        (fe.dphi_dxi i l k * dxi_dx.mapCoeff (dxi_dx.colPtr i) E k j)) E M) S M)
        fe.n_basis N).cols = N.cols ∧
      ∀ x, (forLoop (fun l M => forLoop (fun j M => forLoop (fun k M =>
        M.mapAdd p fe.n_basis l j
        (fe.dphi_dxi i l k * dxi_dx.mapCoeff (dxi_dx.colPtr i) E k j)) E M) S M)
        fe.n_basis N).data x
        = N.data x + ∑ l in range fe.n_basis, ∑ j in range S, ∑ k in range E,
            if x = p + j * fe.n_basis + l
            then fe.dphi_dxi i l k * dxi_dx.mapCoeff (dxi_dx.colPtr i) E k j else 0 := by
    intro p i
    exact forLoop_adds (S * fe.n_basis) _ _ (fun l N hN => l3 p i l N hN) fe.n_basis
  refine forLoop_adds (S * fe.n_basis) _ _ ?_ n M hM
  intro i N hN
  have := l2 (N.colPtr i) i N hN
  simpa only [colPtr, hN] using this

/-- When both assertions of `compute_dphi_dx` hold, the call succeeds and the
`n_basis x SpatialDim` block packed in column `q` of `dphi_dx` has the entry
`Σ_{k < ElemDim} dphi_dxi(q,l,k) * dxi_dx(k,j)` at `(l, j)`, for the
`ElemDim x SpatialDim` block of `dxi_dx` packed in column `q`. -/
theorem compute_dphi_dx_chain_rule {K : Type} [CommRing K] (ElemDim SpatialDim : Nat)
    (fe_basis : FEBasisType K) (dxi_dx dphi_dx : EMatrix K) (q l j : Nat)
    (hc : dxi_dx.cols = fe_basis.n_q_points)
    (hr : dxi_dx.rows = fe_basis.n_basis * SpatialDim)
    (hq : q < fe_basis.n_q_points) (hl : l < fe_basis.n_basis) (hj : j < SpatialDim) :
    (compute_dphi_dx ElemDim SpatialDim fe_basis dxi_dx dphi_dx).1 = Status.ok ∧
    (compute_dphi_dx ElemDim SpatialDim fe_basis dxi_dx dphi_dx).2.rows
      = SpatialDim * fe_basis.n_basis ∧
    (compute_dphi_dx ElemDim SpatialDim fe_basis dxi_dx dphi_dx).2.cols
      = fe_basis.n_q_points ∧
    (compute_dphi_dx ElemDim SpatialDim fe_basis dxi_dx dphi_dx).2.packedBlock
        fe_basis.n_basis q l j
      = ∑ k in range ElemDim, fe_basis.dphi_dxi q l k * dxi_dx.packedBlock ElemDim q k j := by
  obtain ⟨h1, h2, h3⟩ := dphi_dx_loop ElemDim SpatialDim fe_basis dxi_dx
    (zeros (SpatialDim * fe_basis.n_basis) fe_basis.n_q_points) rfl fe_basis.n_q_points
  have e : compute_dphi_dx ElemDim SpatialDim fe_basis dxi_dx dphi_dx
      = (Status.ok, forLoop (fun i M =>
          let dxidx := dxi_dx.colPtr i
          let dphidx := M.colPtr i
          forLoop (fun l M =>
            forLoop (fun j M =>
              forLoop (fun k M =>
                M.mapAdd dphidx fe_basis.n_basis l j
                  (fe_basis.dphi_dxi i l k * dxi_dx.mapCoeff dxidx ElemDim k j))
                ElemDim M) SpatialDim M) fe_basis.n_basis M) fe_basis.n_q_points
          (zeros (SpatialDim * fe_basis.n_basis) fe_basis.n_q_points)) := by
    unfold compute_dphi_dx
    simp only [hc, hr, if_true]
  rw [e]
  refine ⟨rfl, h1, h2, ?_⟩
  simp only [packedBlock, coeff]
  rw [h1, h3]
  simp only [zeros, zero_add]
  have hcomm : SpatialDim * fe_basis.n_basis = fe_basis.n_basis * SpatialDim :=
    Nat.mul_comm _ _
  rw [Finset.sum_eq_single_of_mem q (mem_range.mpr hq)]
  · rw [Finset.sum_eq_single_of_mem l (mem_range.mpr hl)]
    · rw [Finset.sum_eq_single_of_mem j (mem_range.mpr hj)]
      · refine Finset.sum_congr rfl (fun k _ => ?_)
        rw [if_pos (Nat.add_assoc _ _ _).symm]
        simp only [mapCoeff, colPtr, Nat.add_assoc]
      · intro j' hj' hne
        refine Finset.sum_eq_zero (fun k _ => ?_)
        rw [if_neg]
        intro e'
        rw [← Nat.add_assoc, hcomm] at e'
        exact hne (packed_inj hl hj hl (mem_range.mp hj') e').2.1.symm
    · intro l' hl' hne
      refine Finset.sum_eq_zero (fun j' hj' => Finset.sum_eq_zero (fun k _ => ?_))
      rw [if_neg]
      intro e'
      rw [← Nat.add_assoc, hcomm] at e'
      exact hne (packed_inj hl hj (mem_range.mp hl') (mem_range.mp hj') e').2.2.symm
  · intro i _ hne
    refine Finset.sum_eq_zero (fun l' hl' => Finset.sum_eq_zero (fun j' hj' =>
      Finset.sum_eq_zero (fun k _ => ?_)))
    rw [if_neg]
    intro e'
    rw [← Nat.add_assoc, hcomm] at e'
    exact hne (packed_inj hl hj (mem_range.mp hl') (mem_range.mp hj') e').1.symm

/-- Claim C19, evaluated on the four-node quadrilateral (`ElemDim = SpatialDim = 2`, two
quadrature points) with the inverse Jacobian of the unit square: `dxi_dx` has as many columns
as the basis has quadrature points and `2 * 2 = 4` rows, but `compute_dphi_dx` compares the
row count with `n_basis * SpatialDim = 8`, fails and leaves `dphi_dx` as it was. -/
theorem dphi_dx_at_quadrilateral :
    unitSquareJac.cols = quadBasis.n_q_points ∧ unitSquareJac.rows = 2 * 2 ∧
    quadBasis.n_basis * 2 = 8 ∧
    compute_dphi_dx 2 2 quadBasis unitSquareJac (zeros 0 0)
      = (Status.failed "Incompatible rows in dxi_dx.", zeros 0 0) := by
  refine ⟨rfl, rfl, rfl, ?_⟩
  simp [compute_dphi_dx, unitSquareJac, quadBasis]

/-- Witness of `quad_side_spec` at side index `4` of the unit square. -/
theorem quad_side_spec_witness :
    4 ≤ 4 ∧
    (compute_detJ_side_2d Rat.sqrt unitSquareContext 4 unitSquareJac (zeros 0 0)).1
      ≠ Status.ok ∧
    (compute_side_tangent_and_normal_2d Rat.sqrt unitSquareContext 4 unitSquareJac (zeros 0 0)
      (zeros 0 0)).1 ≠ Status.ok :=
  ⟨by decide,
    (quad_side_spec Rat.sqrt unitSquareContext 4 unitSquareJac (zeros 0 0) (zeros 0 0)
      (zeros 0 0) (by decide)).2.2.2.2.2.2.1,
    (quad_side_spec Rat.sqrt unitSquareContext 4 unitSquareJac (zeros 0 0) (zeros 0 0)
      (zeros 0 0) (by decide)).2.2.2.2.2.2.2.2⟩

/-- Witness of `side_1d_tangent_normal_spec` on the 1-D Jacobian with one point. -/
theorem side_1d_tangent_normal_spec_witness :
    lineJac.cols = 1 ∧
    (compute_side_tangent_and_normal_1d unitSquareContext 0 lineJac (zeros 0 0)
      (zeros 0 0)).2.2.coeff 0 0 = -1 ∧
    (compute_side_tangent_and_normal_1d unitSquareContext 1 lineJac (zeros 0 0)
      (zeros 0 0)).2.2.coeff 0 0 = 1 :=
  ⟨rfl,
    ((side_1d_tangent_normal_spec unitSquareContext lineJac (zeros 0 0) (zeros 0 0)).1 rfl).2.1,
    ((side_1d_tangent_normal_spec unitSquareContext lineJac (zeros 0 0) (zeros 0 0)).1 rfl).2.2⟩

/-- Witness of `side_1d_any_index_spec` on the 1-D Jacobian with one point, side `1`. -/
theorem side_1d_any_index_spec_witness :
    lineJac.cols = 1 ∧
    (compute_detJ_side_1d unitSquareContext 1 lineJac (zeros 0 0)).2.coeff 0 0 = 1 :=
  ⟨rfl,
    ((side_1d_any_index_spec unitSquareContext 1 lineJac (zeros 0 0) (zeros 0 0)
      (zeros 0 0)).2.2 rfl).2.2.1⟩

end Evaluation
end FEBasis

namespace Base
namespace ParameterData

/-- Witness of `add_spec`: adding the real parameter `E` to the empty store succeeds and
`get` then returns `0`. -/
theorem add_spec_witness :
    ((new : ParameterData ℚ).add_real "E").1 = Status.ok ∧
    ((new : ParameterData ℚ).add_real "E").2.get_real "E" = Except.ok 0 :=
  ⟨rfl, ((add_spec (new : ParameterData ℚ) "E").2.2.2 rfl).1⟩

end ParameterData
end Base
end MAST

namespace MAST
namespace Base
namespace ParameterData

variable {K : Type}

/-- What `_get_from_map` returns: the stored value of a key, an error for any other name. -/
theorem get_from_map_cases {T : Type} (nm : String) (m : String → Option T) :
    (m nm = none ∧ _get_from_map nm m = Except.error ("Data does not exist for name: " ++ nm)) ∨
    (∃ v, m nm = some v ∧ _get_from_map nm m = Except.ok v) := by
  unfold _get_from_map
  cases h : m nm with
  | none => exact Or.inl ⟨rfl, rfl⟩
  | some v => exact Or.inr ⟨v, rfl, rfl⟩

/-- One use makes `nm` an integer key exactly when it is `add<int>(nm)`, and never removes
a key. -/
theorem run_int_key [Zero K] (call : Call K) (s : ParameterData K) (nm : String) :
    (call.run s)._int_data nm ≠ none ↔ s._int_data nm ≠ none ∨ call = Call.add_int nm := by
  obtain ⟨mi, mr⟩ := s
  cases call with
  | add_int k =>
    rcases add_to_map_cases (0 : Int) k mi with ⟨h, e⟩ | ⟨h, e1, e2⟩
    · simp only [Call.run, add_int, e]
      by_cases hk : nm = k
      · subst hk; simp
      · have hk' : ¬ k = nm := fun e => hk e.symm
        simp [hk, hk']
    · simp only [Call.run, add_int, e2]
      constructor
      · exact fun h' => Or.inl h'
      · rintro (h' | h')
        · exact h'
        · have hk : k = nm := by injection h'
          subst hk
          exact h
  | add_real k => simp [Call.run, add_real]
  | get_int k => simp [Call.run]
  | get_real k => simp [Call.run]
  | write_int k v =>
    simp only [Call.run]
    by_cases hk : nm = k
    · subst hk
      cases h : mi nm <;> simp [h]
    · simp [hk]
  | write_real k v => simp [Call.run]

/-- One use makes `nm` a real key exactly when it is `add<real_t>(nm)`, and never removes
a key. -/
theorem run_real_key [Zero K] (call : Call K) (s : ParameterData K) (nm : String) :
    (call.run s)._real_data nm ≠ none ↔ s._real_data nm ≠ none ∨ call = Call.add_real nm := by
  obtain ⟨mi, mr⟩ := s
  cases call with
  | add_real k =>
    rcases add_to_map_cases (0 : K) k mr with ⟨h, e⟩ | ⟨h, e1, e2⟩
    · simp only [Call.run, add_real, e]
      by_cases hk : nm = k
      · subst hk; simp
      · have hk' : ¬ k = nm := fun e => hk e.symm
        simp [hk, hk']
    · simp only [Call.run, add_real, e2]
      constructor
      · exact fun h' => Or.inl h'
      · rintro (h' | h')
        · exact h'
        · have hk : k = nm := by injection h'
          subst hk
          exact h
  | add_int k => simp [Call.run, add_int]
  | get_int k => simp [Call.run]
  | get_real k => simp [Call.run]
  | write_real k v =>
    simp only [Call.run]
    by_cases hk : nm = k
    · subst hk
      cases h : mr nm <;> simp [h]
    · simp [hk]
  | write_int k v => simp [Call.run]

/-- After a sequence of uses `nm` is an integer key exactly when it was one before or the
sequence holds `add<int>(nm)`. -/
theorem runCalls_int_key [Zero K] (calls : List (Call K)) (nm : String) :
    ∀ s : ParameterData K,
      (runCalls calls s)._int_data nm ≠ none
        ↔ s._int_data nm ≠ none ∨ Call.add_int nm ∈ calls := by
  induction calls with
  | nil => intro s; simp [runCalls]
  | cons call rest ih =>
    intro s
    have h := ih (call.run s)
    simp only [runCalls, List.foldl_cons] at h ⊢
    rw [h, run_int_key, List.mem_cons, or_assoc]
    constructor
    · rintro (h1 | h1 | h1)
      · exact Or.inl h1
      · exact Or.inr (Or.inl h1.symm)
      · exact Or.inr (Or.inr h1)
    · rintro (h1 | h1 | h1)
      · exact Or.inl h1
      · exact Or.inr (Or.inl h1.symm)
      · exact Or.inr (Or.inr h1)

/-- After a sequence of uses `nm` is a real key exactly when it was one before or the
sequence holds `add<real_t>(nm)`. -/
theorem runCalls_real_key [Zero K] (calls : List (Call K)) (nm : String) :
    ∀ s : ParameterData K,
      (runCalls calls s)._real_data nm ≠ none
        ↔ s._real_data nm ≠ none ∨ Call.add_real nm ∈ calls := by
  induction calls with
  | nil => intro s; simp [runCalls]
  | cons call rest ih =>
    intro s
    have h := ih (call.run s)
    simp only [runCalls, List.foldl_cons] at h ⊢
    rw [h, run_real_key, List.mem_cons, or_assoc]
    constructor
    · rintro (h1 | h1 | h1)
      · exact Or.inl h1
      · exact Or.inr (Or.inl h1.symm)
      · exact Or.inr (Or.inr h1)
    · rintro (h1 | h1 | h1)
      · exact Or.inl h1
      · exact Or.inr (Or.inl h1.symm)
      · exact Or.inr (Or.inr h1)

/-- Claim C21: on the store that any sequence of uses builds from the empty store,
`get<T>(name)`, for `T` integer or real, fails if and only if the sequence holds no
`add<T>(name)` (an `add` of the name under the other type does not count); on every store
`get<T>(name)` returns the value currently stored for `name` when there is one and fails
otherwise; and a `get` leaves the store as it was. -/
theorem get_spec [Zero K] (calls : List (Call K)) (self : ParameterData K) (nm : String) :
    (((∃ msg, (runCalls calls new).get_int nm = Except.error msg)
        ↔ Call.add_int nm ∉ calls) ∧
      ((∃ msg, (runCalls calls new).get_real nm = Except.error msg)
        ↔ Call.add_real nm ∉ calls)) ∧
    ((∀ v, self._int_data nm = some v → self.get_int nm = Except.ok v) ∧
      (self._int_data nm = none → ∃ msg, self.get_int nm = Except.error msg) ∧
      (∀ v, self._real_data nm = some v → self.get_real nm = Except.ok v) ∧
      (self._real_data nm = none → ∃ msg, self.get_real nm = Except.error msg)) ∧
    ((Call.get_int nm).run self = self ∧ (Call.get_real nm).run self = self) := by
  refine ⟨⟨?_, ?_⟩, ⟨?_, ?_, ?_, ?_⟩, rfl, rfl⟩
  · have hk := runCalls_int_key calls nm (new : ParameterData K)
    rcases get_from_map_cases nm (runCalls calls (new : ParameterData K))._int_data with
      ⟨h, e⟩ | ⟨v, h, e⟩
    · simp only [get_int, e]
      constructor
      · intro _ hin
        exact (hk.mpr (Or.inr hin)) h
      · exact fun _ => ⟨_, rfl⟩
    · simp only [get_int, e]
      constructor
      · rintro ⟨msg, hmsg⟩
        cases hmsg
      · intro hnot
        rcases hk.mp (by rw [h]; simp) with h' | h'
        · exact absurd rfl h'
        · exact absurd h' hnot
  · have hk := runCalls_real_key calls nm (new : ParameterData K)
    rcases get_from_map_cases nm (runCalls calls (new : ParameterData K))._real_data with
      ⟨h, e⟩ | ⟨v, h, e⟩
    · simp only [get_real, e]
      constructor
      · intro _ hin
        exact (hk.mpr (Or.inr hin)) h
      · exact fun _ => ⟨_, rfl⟩
    · simp only [get_real, e]
      constructor
      · rintro ⟨msg, hmsg⟩
        cases hmsg
      · intro hnot
        rcases hk.mp (by rw [h]; simp) with h' | h'
        · exact absurd rfl h'
        · exact absurd h' hnot
  · intro v h
    simp [get_int, _get_from_map, h]
  · intro h
    exact ⟨"Data does not exist for name: " ++ nm, by simp [get_int, _get_from_map, h]⟩
  · intro v h
    simp [get_real, _get_from_map, h]
  · intro h
    exact ⟨"Data does not exist for name: " ++ nm, by simp [get_real, _get_from_map, h]⟩

/-- Witness of `get_spec`: after `add<real_t>("E")` and the assignment of `7` through its
reference, `get<int>("E")` fails and `get<real_t>("E")` returns `7`. -/
theorem get_spec_witness :
    (∃ msg, (runCalls [Call.add_real "E", Call.write_real "E" 7]
      (new : ParameterData ℚ)).get_int "E" = Except.error msg) ∧
    (runCalls [Call.add_real "E", Call.write_real "E" 7]
      (new : ParameterData ℚ)).get_real "E" = Except.ok 7 :=
  ⟨(get_spec [Call.add_real "E", Call.write_real "E" 7] (new : ParameterData ℚ) "E").1.1.mpr
      (by simp),
    (get_spec [] (runCalls [Call.add_real "E", Call.write_real "E" 7]
      (new : ParameterData ℚ)) "E").2.1.2.2.1 7
      (by simp [runCalls, Call.run, add_real, _add_to_map, new])⟩

end ParameterData
end Base
end MAST

namespace MAST
namespace Physics
namespace Elasticity
namespace ElastoPlasticity

open Finset

variable {K C : Type}

end ElastoPlasticity
end Elasticity
end Physics
end MAST

namespace MAST
namespace FEBasis
namespace Evaluation

open Finset EMatrix

set_option maxRecDepth 8000 in
/-- Claim C10, evaluated on the triangle (`ElemDim = SpatialDim = 2`, two quadrature
points): the contract gives the `(0,1)` entry of the block packed in column `0` as
`Σ_l dphi_dxi(0,l,1) * node_coord(0,l) = 1`.  In a build without `NDEBUG`, `compute_Jac`
stops at Eigen's assertion on the extents of its view.  In a build with `NDEBUG` it succeeds
and returns the `4 x 2` matrix with the cells `(2, 1, 0, 0, 3, 2, 0, 0)`, in which that entry
is `0`. -/
theorem compute_Jac_at_triangle :
    (0 < triBasis.n_q_points ∧ (0 : Nat) < 2 ∧ (1 : Nat) < 2) ∧
    (∑ l in range triContext.n_nodes, triBasis.dphi_dxi 0 l 1 * triNodeCoord.coeff 0 l) = 1 ∧
    (compute_Jac false 2 2 triContext triBasis triNodeCoord (zeros 0 0)).1 ≠ Status.ok ∧
    (compute_Jac true 2 2 triContext triBasis triNodeCoord (zeros 0 0)).1 = Status.ok ∧
    ((compute_Jac true 2 2 triContext triBasis triNodeCoord (zeros 0 0)).2.rows = 4 ∧
      (compute_Jac true 2 2 triContext triBasis triNodeCoord (zeros 0 0)).2.cols = 2 ∧
      (compute_Jac true 2 2 triContext triBasis triNodeCoord (zeros 0 0)).2.data 0 = 2 ∧
      (compute_Jac true 2 2 triContext triBasis triNodeCoord (zeros 0 0)).2.data 1 = 1 ∧
      (compute_Jac true 2 2 triContext triBasis triNodeCoord (zeros 0 0)).2.data 2 = 0 ∧
      (compute_Jac true 2 2 triContext triBasis triNodeCoord (zeros 0 0)).2.data 3 = 0 ∧
      (compute_Jac true 2 2 triContext triBasis triNodeCoord (zeros 0 0)).2.data 4 = 3 ∧
      (compute_Jac true 2 2 triContext triBasis triNodeCoord (zeros 0 0)).2.data 5 = 2 ∧
      (compute_Jac true 2 2 triContext triBasis triNodeCoord (zeros 0 0)).2.data 6 = 0 ∧
      (compute_Jac true 2 2 triContext triBasis triNodeCoord (zeros 0 0)).2.data 7 = 0) ∧
    (compute_Jac true 2 2 triContext triBasis triNodeCoord (zeros 0 0)).2.packedBlock 2 0 0 1
      = 0 := by
  have hcells : (compute_Jac true 2 2 triContext triBasis triNodeCoord (zeros 0 0)).2.rows = 4 ∧
      (compute_Jac true 2 2 triContext triBasis triNodeCoord (zeros 0 0)).2.cols = 2 ∧
      (compute_Jac true 2 2 triContext triBasis triNodeCoord (zeros 0 0)).2.data 0 = 2 ∧
      (compute_Jac true 2 2 triContext triBasis triNodeCoord (zeros 0 0)).2.data 1 = 1 ∧
      (compute_Jac true 2 2 triContext triBasis triNodeCoord (zeros 0 0)).2.data 2 = 0 ∧
      (compute_Jac true 2 2 triContext triBasis triNodeCoord (zeros 0 0)).2.data 3 = 0 ∧
      (compute_Jac true 2 2 triContext triBasis triNodeCoord (zeros 0 0)).2.data 4 = 3 ∧
      (compute_Jac true 2 2 triContext triBasis triNodeCoord (zeros 0 0)).2.data 5 = 2 ∧
      (compute_Jac true 2 2 triContext triBasis triNodeCoord (zeros 0 0)).2.data 6 = 0 ∧
      (compute_Jac true 2 2 triContext triBasis triNodeCoord (zeros 0 0)).2.data 7 = 0 := by
    simp [compute_Jac, triNodeCoord, compute_xyz, forLoop, mapAdd, addAt, writeAt, setCoeff,
      coeff, colPtr, zeros, triBasis, triContext, Function.update_apply]
    norm_num
  refine ⟨⟨by decide, by decide, by decide⟩, ?_, ?_, ?_, hcells, ?_⟩
  · simp [Finset.sum_range_succ, triNodeCoord, compute_xyz, forLoop, setCoeff, writeAt, coeff,
      zeros, triBasis, triContext, Function.update_apply]
  · simp [compute_Jac, triBasis]
  · simp [compute_Jac]
  · obtain ⟨hr, _, _, _, d2, _⟩ := hcells
    show (compute_Jac true 2 2 triContext triBasis triNodeCoord (zeros 0 0)).2.data
      (0 * (compute_Jac true 2 2 triContext triBasis triNodeCoord (zeros 0 0)).2.rows
        + (1 * 2 + 0)) = 0
    rw [hr]
    exact d2

/-- The determinant that `compute_detJ` takes with `NDEBUG` at point `0` of the unit square
with four quadrature points: the `4 x 4` view over the four packed identity blocks has equal
columns. -/
theorem unitSquareJac4_view_det :
    (unitSquareJac4.mapBlock (unitSquareJac4.colPtr 0) (2 * 2)).det = 0 := by
  have h : (unitSquareJac4.mapBlock (unitSquareJac4.colPtr 0) 4).det = 0 := by
    refine Matrix.det_zero_of_column_eq (i := 0) (j := 1) (by decide) ?_
    intro k
    fin_cases k <;> simp [mapBlock, colPtr, unitSquareJac4]
  exact h

/-- Claim C11, evaluated on the unit square mapped to itself with four quadrature points
(`ElemDim = SpatialDim = 2`, the identity block in every column of `dx_dxi`): the contract
gives the determinant `1` at every point.  In a build without `NDEBUG`, `compute_detJ` stops
at Eigen's assertion on the extents of its view.  In a build with `NDEBUG` it succeeds and
returns a vector of four entries whose entry `0` is `0`, the determinant of the `4 x 4` view
over all four columns. -/
theorem compute_detJ_at_unit_square :
    (∀ q : Fin 4, unitSquareJac4.packedSquare 2 q = 1) ∧
    (∀ luDeterminant : Nat → Nat → (Nat → Nat → ℚ) → ℚ,
      (compute_detJ false luDeterminant 2 unitSquareJac4 (zeros 0 0)).1 ≠ Status.ok) ∧
    (∀ luDeterminant : Nat → Nat → (Nat → Nat → ℚ) → ℚ,
      (compute_detJ true luDeterminant 2 unitSquareJac4 (zeros 0 0)).1 = Status.ok ∧
      (compute_detJ true luDeterminant 2 unitSquareJac4 (zeros 0 0)).2.rows = 4 ∧
      (compute_detJ true luDeterminant 2 unitSquareJac4 (zeros 0 0)).2.cols = 1 ∧
      (compute_detJ true luDeterminant 2 unitSquareJac4 (zeros 0 0)).2.coeff 0 0 = 0) := by
  refine ⟨?_, fun lu => ?_, fun lu => ?_⟩
  · intro q
    funext a b
    fin_cases q <;> fin_cases a <;> fin_cases b <;>
      simp [packedSquare, packedBlock, coeff, unitSquareJac4]
  · exact (compute_detJ_status false lu 2 unitSquareJac4 (zeros 0 0)).mpr
      ⟨rfl, by decide, by decide⟩
  · obtain ⟨h1, h2, h3, _⟩ := forLoop_writeAt_cell
      (fun i => if 2 * 2 ≤ 4 then (unitSquareJac4.mapBlock (unitSquareJac4.colPtr i) (2 * 2)).det
        else lu (2 * 2) 2 (fun a b =>
          unitSquareJac4.mapCoeff (unitSquareJac4.colPtr i) (2 * 2) a b))
      (zeros unitSquareJac4.cols 1) unitSquareJac4.cols
    have e : compute_detJ true lu 2 unitSquareJac4 (zeros 0 0)
        = (Status.ok, forLoop (fun i D => D.writeAt i
            (if 2 * 2 ≤ 4 then
              (unitSquareJac4.mapBlock (unitSquareJac4.colPtr i) (2 * 2)).det
            else lu (2 * 2) 2 (fun a b =>
              unitSquareJac4.mapCoeff (unitSquareJac4.colPtr i) (2 * 2) a b)))
            unitSquareJac4.cols (zeros unitSquareJac4.cols 1)) := by
      unfold compute_detJ
      rw [if_neg (by simp)]
    rw [e]
    refine ⟨rfl, h1, h2, ?_⟩
    have h0 := h3 0 (by decide)
    rw [if_pos (by decide), unitSquareJac4_view_det] at h0
    have key : ∀ X : EMatrix ℚ, X.data 0 = 0 → X.coeff 0 0 = 0 := by
      intro X h
      show X.data (0 * X.rows + 0) = 0
      rw [Nat.zero_mul]
      exact h
    exact key _ h0

set_option maxRecDepth 8000 in
/-- The side measure of the parallelogram when `dx_dxi` is what `compute_Jac` itself returns
(see `detJ_side_at_parallelogram` for the packed Jacobian): without `NDEBUG`, `compute_Jac`
stops at Eigen's assertion; with `NDEBUG` it returns the cells `(3, 0, 0, 0, 7, 1, 0, 0)`,
for which `compute_detJ_side` returns `3` at point `0` and `0` at point `1`, where the
contract gives `3` at both. -/
theorem detJ_side_after_compute_Jac :
    (compute_Jac false 2 2 skewQuadContext quadBasis skewQuadNodeCoord (zeros 0 0)).1
      ≠ Status.ok ∧
    (compute_Jac true 2 2 skewQuadContext quadBasis skewQuadNodeCoord (zeros 0 0)).1
      = Status.ok ∧
    (compute_detJ_side_2d Rat.sqrt skewQuadContext 0
      (compute_Jac true 2 2 skewQuadContext quadBasis skewQuadNodeCoord (zeros 0 0)).2
      (zeros 0 0)).1 = Status.ok ∧
    (compute_detJ_side_2d Rat.sqrt skewQuadContext 0
      (compute_Jac true 2 2 skewQuadContext quadBasis skewQuadNodeCoord (zeros 0 0)).2
      (zeros 0 0)).2.data 0 = 3 ∧
    (compute_detJ_side_2d Rat.sqrt skewQuadContext 0
      (compute_Jac true 2 2 skewQuadContext quadBasis skewQuadNodeCoord (zeros 0 0)).2
      (zeros 0 0)).2.data 1 = 0 := by
  obtain ⟨s25, s9, s1⟩ := ratSqrt_values
  have s0 : Rat.sqrt 0 = 0 := by
    calc Rat.sqrt 0 = Rat.sqrt (0 * 0) := congrArg Rat.sqrt (by norm_num)
      _ = |0| := Rat.sqrt_eq 0
      _ = 0 := abs_zero
  have hcells :
      (compute_Jac true 2 2 skewQuadContext quadBasis skewQuadNodeCoord (zeros 0 0)).2.cols
        = 2 ∧
      (compute_Jac true 2 2 skewQuadContext quadBasis skewQuadNodeCoord (zeros 0 0)).2.data 0
        = 3 ∧
      (compute_Jac true 2 2 skewQuadContext quadBasis skewQuadNodeCoord (zeros 0 0)).2.data 1
        = 0 ∧
      (compute_Jac true 2 2 skewQuadContext quadBasis skewQuadNodeCoord (zeros 0 0)).2.data 2
        = 0 ∧
      (compute_Jac true 2 2 skewQuadContext quadBasis skewQuadNodeCoord (zeros 0 0)).2.data 3
        = 0 := by
    simp [compute_Jac, skewQuadNodeCoord, compute_xyz, forLoop, mapAdd, addAt, writeAt,
      setCoeff, coeff, colPtr, zeros, quadBasis, skewQuadContext, Function.update_apply]
    norm_num
  obtain ⟨hc, d0, d1, d2, d3⟩ := hcells
  have key : ∀ J : EMatrix ℚ, J.cols = 2 → J.data 0 = 3 → J.data 1 = 0 → J.data 2 = 0 →
      J.data 3 = 0 →
      (compute_detJ_side_2d Rat.sqrt skewQuadContext 0 J (zeros 0 0)).1 = Status.ok ∧
      (compute_detJ_side_2d Rat.sqrt skewQuadContext 0 J (zeros 0 0)).2.data 0 = 3 ∧
      (compute_detJ_side_2d Rat.sqrt skewQuadContext 0 J (zeros 0 0)).2.data 1 = 0 := by
    intro J hc d0 d1 d2 d3
    simp [compute_detJ_side_2d, compute_detJ_side_quad, skewQuadContext, quad_side_Jac_row,
      forLoop, rowPtr, mapCoeff, norm2, writeAt, zeros, Function.update_apply, hc, d0, d1, d2,
      d3]
    norm_num [s9, s0]
  refine ⟨?_, ?_, key _ hc d0 d1 d2 d3⟩
  · simp [compute_Jac, quadBasis]
  · simp [compute_Jac]

end Evaluation
end FEBasis
end MAST
